import Mathlib

/-!
# Verification of the storage-engine core (lock manager, extendible hash,
# B+ tree, ARIES-style recovery)

Shallow embedding of the repository's four subsystems
(`src/concurrency/lock_manager.cpp`, `src/hash/extendible_hash.cpp`,
`src/index/b_plus_tree.cpp` with its page classes, and
`src/logging/log_recovery.cpp`), together with theorems settling the
spec claims about them.

Conventions: C++ machine integers that never overflow in the modelled
scenarios become `Int`/`Nat`; pointer-shared mutable objects become
arena indices with explicit state passing; a call that can suspend on a
promise returns a result constructor `blocked` and its eventual wake-up
is performed by the `Unlock` that fulfills the promise.
-/

namespace LockMgr

/-- `txn_id_t` is a C `int`; `-1` is the sentinel stored in
`WaitList::oldest`. Transaction ids issued by `TransactionManager::Begin`
are non-negative. -/
abbrev TxnId := Int

/-- Record identifier, opaque lock key (`common/rid.h`). -/
abbrev RID := Nat

/-- `TransactionState` from `concurrency/transaction.h`. -/
inductive TransactionState where
  | growing
  | shrinking
  | committed
  | aborted
deriving DecidableEq, Repr

/-- `WaitState` from `lock_manager.h`. -/
inductive WaitState where
  | init
  | shared
  | exclusive
deriving DecidableEq, Repr

/-- `WaitList::WaitItem` (txn id plus requested state); the
`std::promise` member is modelled by the grant performed in `Unlock`. -/
structure WaitItem where
  txn_id : TxnId
  target_state : WaitState
deriving DecidableEq, Repr

/-- `WaitList` from `lock_manager.h`: FIFO wait queue, `oldest` txn id
(`-1` when unset), current `state`, and the set of granted txn ids. -/
structure WaitList where
  lst : List WaitItem
  oldest : TxnId
  state : WaitState
  granted : List TxnId
deriving DecidableEq, Repr

/-- The `WaitList(txn_id_t, WaitState)` constructor: inserts the creator
into `granted` and records it as `oldest`. -/
def WaitList.create (t_id : TxnId) (state : WaitState) : WaitList :=
  { lst := [], oldest := t_id, state := state, granted := [t_id] }

/-- `std::set::insert` on the granted set: idempotent insertion. -/
def setInsert (t : TxnId) (s : List TxnId) : List TxnId :=
  if t ∈ s then s else t :: s

/-- Combined state of a `LockManager` and the `Transaction` objects it is
called with: the per-RID lock table plus each transaction's state and
shared/exclusive lock sets (`Transaction::GetSharedLockSet` etc.). -/
structure LMState where
  strict2PL : Bool
  lock_map : RID → Option WaitList
  txn_state : TxnId → TransactionState
  shared_set : TxnId → RID → Bool
  exclusive_set : TxnId → RID → Bool

def LMState.setTxnState (s : LMState) (t : TxnId) (st : TransactionState) : LMState :=
  { s with txn_state := fun u => if u = t then st else s.txn_state u }

def LMState.setEntry (s : LMState) (r : RID) (wl : Option WaitList) : LMState :=
  { s with lock_map := fun r' => if r' = r then wl else s.lock_map r' }

/-- `txn->GetSharedLockSet()->insert(rid)`. -/
def LMState.addShared (s : LMState) (t : TxnId) (r : RID) : LMState :=
  { s with shared_set := fun u r' => if u = t ∧ r' = r then true else s.shared_set u r' }

/-- `txn->GetExclusiveLockSet()->insert(rid)`. -/
def LMState.addExclusive (s : LMState) (t : TxnId) (r : RID) : LMState :=
  { s with exclusive_set := fun u r' => if u = t ∧ r' = r then true else s.exclusive_set u r' }

/-- `isValidTxnState` (lock_manager.cpp lines 9-21): terminal states
refuse; SHRINKING aborts the transaction and refuses; GROWING passes. -/
def isValidTxnState (s : LMState) (t : TxnId) : LMState × Bool :=
  match s.txn_state t with
  | .aborted => (s, false)
  | .committed => (s, false)
  | .shrinking => (s.setTxnState t .aborted, false)
  | .growing => (s, true)

/-- Outcome of a lock request.  `granted` and `died`/`refused` are the
immediate `true`/`false` returns; `blocked` is the suspension on the
promise (the call returns `true` later, when an `Unlock` fulfills it). -/
inductive LockResult where
  | granted
  | refused
  | died
  | blocked
deriving DecidableEq, Repr

/-- `LockManager::LockShared` (lock_manager.cpp lines 23-60). -/
def LockShared (s0 : LMState) (t_id : TxnId) (rid : RID) : LMState × LockResult :=
  let p := isValidTxnState s0 t_id
  if p.2 = false then (p.1, .refused)
  else
    let s := p.1
    match s.lock_map rid with
    | none =>
        let wl := WaitList.create t_id .shared
        (((s.setEntry rid (some wl)).addShared t_id rid), .granted)
    | some wl =>
        if wl.state = .exclusive then
          -- wait-die rule
          if t_id > wl.oldest ∧ wl.oldest ≠ -1 then
            (s.setTxnState t_id .aborted, .died)
          else
            (s.setEntry rid (some { wl with lst := wl.lst ++ [⟨t_id, .shared⟩] }), .blocked)
        else
          let wl' := { wl with granted := setInsert t_id wl.granted,
                               oldest := max t_id wl.oldest }
          ((s.setEntry rid (some wl')).addShared t_id rid, .granted)

/-- `LockManager::LockExclusive` (lock_manager.cpp lines 62-92). -/
def LockExclusive (s0 : LMState) (t_id : TxnId) (rid : RID) : LMState × LockResult :=
  let p := isValidTxnState s0 t_id
  if p.2 = false then (p.1, .refused)
  else
    let s := p.1
    match s.lock_map rid with
    | none =>
        let wl := WaitList.create t_id .exclusive
        (((s.setEntry rid (some wl)).addExclusive t_id rid), .granted)
    | some wl =>
        -- wait-die rule
        if t_id > wl.oldest ∧ wl.oldest ≠ -1 then
          (s.setTxnState t_id .aborted, .died)
        else
          (s.setEntry rid (some { wl with lst := wl.lst ++ [⟨t_id, .exclusive⟩] }), .blocked)

/-- `LockManager::Unlock(txn, rid, upgrading)` (lock_manager.cpp lines
119-162).  When the head waiter is granted, its promise is fulfilled:
the woken `LockShared`/`LockExclusive` call finishes by inserting the
RID into that transaction's lock set, which is performed here. -/
def Unlock (s0 : LMState) (t_id : TxnId) (rid : RID) (upgrading : Bool) : LMState × Bool :=
  let txnState := s0.txn_state t_id
  if s0.strict2PL ∧ ¬(txnState = .committed ∨ txnState = .aborted) then
    (s0, false)
  else
    let s :=
      if ¬s0.strict2PL ∧ txnState = .growing ∧ upgrading = false then
        s0.setTxnState t_id .shrinking
      else s0
    match s.lock_map rid with
    | none => (s, false)
    | some wl =>
        if t_id ∉ wl.granted then (s, false)
        else
          let granted1 := wl.granted.erase t_id
          match wl.lst with
          | [] => (s.setEntry rid none, true)
          | next :: rest =>
              let granted2 := setInsert next.txn_id granted1
              let oldest' := match rest with
                | [] => (-1 : Int)
                | n2 :: _ => n2.txn_id
              let state' := match rest with
                | [] => WaitState.init
                | n2 :: _ => n2.target_state
              let wl' : WaitList :=
                { lst := rest, oldest := oldest', state := state', granted := granted2 }
              let s' := s.setEntry rid (some wl')
              -- promise->set_value(true): the waiter resumes and inserts
              -- the RID into its lock set, then its call returns true
              let s'' := match next.target_state with
                | .shared => s'.addShared next.txn_id rid
                | .exclusive => s'.addExclusive next.txn_id rid
                | .init => s'
              (s'', true)

/-- `LockManager::LockUpgrade` (lock_manager.cpp lines 94-117). -/
def LockUpgrade (s0 : LMState) (t_id : TxnId) (rid : RID) : LMState × LockResult :=
  let p := isValidTxnState s0 t_id
  if p.2 = false then (p.1, .refused)
  else
    let s := p.1
    match s.lock_map rid with
    | none => (s, .refused)
    | some wl =>
        if t_id ∉ wl.granted then (s, .refused)
        else
          let s1 := (Unlock s t_id rid true).1
          LockExclusive s1 t_id rid

/-- One public lock-manager call in a schedule. -/
inductive LockOp where
  | lockShared (t : TxnId) (r : RID)
  | lockExclusive (t : TxnId) (r : RID)
  | lockUpgrade (t : TxnId) (r : RID)
  | unlock (t : TxnId) (r : RID)
deriving DecidableEq, Repr

def stepOp (s : LMState) (op : LockOp) : LMState :=
  match op with
  | .lockShared t r => (LockShared s t r).1
  | .lockExclusive t r => (LockExclusive s t r).1
  | .lockUpgrade t r => (LockUpgrade s t r).1
  | .unlock t r => (Unlock s t r false).1

def runTrace (s : LMState) (ops : List LockOp) : LMState :=
  ops.foldl stepOp s

/-- A freshly constructed `LockManager(strict)` together with
freshly constructed transactions (all in GROWING, empty lock sets). -/
def initLM (strict : Bool) : LMState :=
  { strict2PL := strict
    lock_map := fun _ => none
    txn_state := fun _ => .growing
    shared_set := fun _ _ => false
    exclusive_set := fun _ _ => false }

/-- Granted txn-id set of the lock-table entry for `r` (empty when the
entry is absent). -/
def grantedOf (s : LMState) (r : RID) : List TxnId :=
  match s.lock_map r with
  | none => []
  | some wl => wl.granted

/-- Wait queue of the lock-table entry for `r`. -/
def waitersOf (s : LMState) (r : RID) : List WaitItem :=
  match s.lock_map r with
  | none => []
  | some wl => wl.lst

@[simp]
theorem setTxnState_lock_map (s : LMState) (t : TxnId) (st : TransactionState) (r : RID) :
    (s.setTxnState t st).lock_map r = s.lock_map r := rfl

@[simp]
theorem setTxnState_strict (s : LMState) (t : TxnId) (st : TransactionState) :
    (s.setTxnState t st).strict2PL = s.strict2PL := rfl

@[simp]
theorem setEntry_txn_state (s : LMState) (r : RID) (wl : Option WaitList) (t : TxnId) :
    (s.setEntry r wl).txn_state t = s.txn_state t := rfl

@[simp]
theorem addShared_txn_state (s : LMState) (t u : TxnId) (r : RID) :
    (s.addShared t r).txn_state u = s.txn_state u := rfl

@[simp]
theorem addExclusive_txn_state (s : LMState) (t u : TxnId) (r : RID) :
    (s.addExclusive t r).txn_state u = s.txn_state u := rfl

@[simp]
theorem addShared_lock_map (s : LMState) (t : TxnId) (r r' : RID) :
    (s.addShared t r).lock_map r' = s.lock_map r' := rfl

@[simp]
theorem addExclusive_lock_map (s : LMState) (t : TxnId) (r r' : RID) :
    (s.addExclusive t r).lock_map r' = s.lock_map r' := rfl

@[simp]
theorem setTxnState_txn_state_self (s : LMState) (t : TxnId) (st : TransactionState) :
    (s.setTxnState t st).txn_state t = st := by
  simp [LMState.setTxnState]

@[simp]
theorem setEntry_lock_map_self (s : LMState) (r : RID) (wl : Option WaitList) :
    (s.setEntry r wl).lock_map r = wl := by
  simp [LMState.setEntry]

/-- Schedule exhibiting the wait-die failure: txn 5 takes a shared lock,
txn 3 (older) queues for exclusive, txn 5 unlocks and hands the lock to
txn 3 — leaving the entry with `state = INIT` and `oldest = -1`. -/
def c1Trace : List LockOp :=
  [.lockShared 5 0, .lockExclusive 3 0, .unlock 5 0]

/-- Schedule exhibiting shared/exclusive co-holding: txns 5 and 6 hold
shared locks, txn 3 queues for exclusive, then txn 5 unlocks. -/
def c2Trace : List LockOp :=
  [.lockShared 5 0, .lockShared 6 0, .lockExclusive 3 0, .unlock 5 0]

end LockMgr

namespace LockMgrThm
open LockMgr

/-- C1. After the `c1Trace` schedule, txn 3 holds the exclusive lock on
RID 0 and is still active, yet the younger requester txn 9's
`LockShared` is granted immediately (returns true, txn 9 stays GROWING)
instead of aborting it as the wait-die claim requires: the grant
hand-off in `Unlock` reset the entry's `state` to INIT and `oldest` to
-1, so the wait-die test never fires. -/
theorem c1_wait_die_not_enforced_after_handoff :
    (runTrace (initLM false) c1Trace).exclusive_set 3 0 = true ∧
    (runTrace (initLM false) c1Trace).txn_state 3 = .growing ∧
    grantedOf (runTrace (initLM false) c1Trace) 0 = [3] ∧
    (LockShared (runTrace (initLM false) c1Trace) 9 0).2 = .granted ∧
    (LockShared (runTrace (initLM false) c1Trace) 9 0).1.txn_state 9 = .growing ∧
    (LockShared (runTrace (initLM false) c1Trace) 9 0).1.shared_set 9 0 = true := by
  decide

/-- C2. After the `c2Trace` schedule, txn 3 holds an exclusive lock on
RID 0 while txn 6 simultaneously holds a shared lock on it (both are in
the entry's granted set, neither has unlocked, both still GROWING):
`Unlock` grants the head waiter without checking the remaining granted
holders, violating the claimed mutual-exclusion invariant. -/
theorem c2_exclusive_and_shared_coheld :
    (runTrace (initLM false) c2Trace).exclusive_set 3 0 = true ∧
    (runTrace (initLM false) c2Trace).txn_state 3 = .growing ∧
    (runTrace (initLM false) c2Trace).shared_set 6 0 = true ∧
    (runTrace (initLM false) c2Trace).txn_state 6 = .growing ∧
    grantedOf (runTrace (initLM false) c2Trace) 0 = [3, 6] ∧
    waitersOf (runTrace (initLM false) c2Trace) 0 = [] := by
  decide

/-- C9. Contract of the public `Unlock` (upgrading = false): a
successful unlock removes the caller from the granted set of the RID's
entry; under non-strict 2PL an unlock of a GROWING transaction moves it
to SHRINKING; under strict 2PL an unlock succeeds only when the
transaction is COMMITTED or ABORTED and returns false otherwise.
Hypotheses: the granted set holds no duplicates and the caller is not
simultaneously parked in the wait queue (both hold in every state the
lock manager itself builds). -/
theorem c9_unlock_contract (s : LMState) (t : TxnId) (r : RID)
    (hN : (grantedOf s r).Nodup)
    (hW : ∀ it ∈ waitersOf s r, it.txn_id ≠ t) :
    ((Unlock s t r false).2 = true → t ∉ grantedOf (Unlock s t r false).1 r) ∧
    (s.strict2PL = false → s.txn_state t = .growing →
      (Unlock s t r false).1.txn_state t = .shrinking) ∧
    (s.strict2PL = true → (Unlock s t r false).2 = true →
      (s.txn_state t = .committed ∨ s.txn_state t = .aborted)) ∧
    (s.strict2PL = true → ¬(s.txn_state t = .committed ∨ s.txn_state t = .aborted) →
      (Unlock s t r false).2 = false) := by
  refine ⟨?_, ?_, ?_, ?_⟩
  · -- a successful unlock removes the caller from the granted set
    cases h : s.lock_map r with
    | none =>
        by_cases hst : s.strict2PL = true <;>
          by_cases hterm : s.txn_state t = .committed ∨ s.txn_state t = .aborted <;>
          by_cases hgrow : s.txn_state t = .growing <;>
          simp [Unlock, hst, hterm, hgrow, h]
    | some wl =>
        have hNod : wl.granted.Nodup := by simpa [grantedOf, h] using hN
        by_cases hmem : t ∈ wl.granted
        · cases hlst : wl.lst with
          | nil =>
              by_cases hst : s.strict2PL = true <;>
                by_cases hterm : s.txn_state t = .committed ∨ s.txn_state t = .aborted <;>
                by_cases hgrow : s.txn_state t = .growing <;>
                simp [Unlock, hst, hterm, hgrow, h, hmem, hlst, grantedOf]
          | cons next rest =>
              have hne : t ≠ next.txn_id := by
                have hx := hW next (by simp [waitersOf, h, hlst])
                exact fun hh => hx hh.symm
              have hkey : t ∉ setInsert next.txn_id (wl.granted.erase t) := by
                by_cases hc : next.txn_id ∈ wl.granted.erase t
                · simpa [setInsert, hc] using hNod.not_mem_erase
                · simp [setInsert, hc, hne, hNod.not_mem_erase]
              cases ht : next.target_state <;>
                by_cases hst : s.strict2PL = true <;>
                by_cases hterm : s.txn_state t = .committed ∨ s.txn_state t = .aborted <;>
                by_cases hgrow : s.txn_state t = .growing <;>
                simp [Unlock, hst, hterm, hgrow, h, hmem, hlst, ht, grantedOf, hkey]
        · by_cases hst : s.strict2PL = true <;>
            by_cases hterm : s.txn_state t = .committed ∨ s.txn_state t = .aborted <;>
            by_cases hgrow : s.txn_state t = .growing <;>
            simp [Unlock, hst, hterm, hgrow, h, hmem]
  · -- non-strict 2PL: GROWING transitions to SHRINKING
    intro hstrict hgrow
    cases h : s.lock_map r with
    | none => simp [Unlock, hstrict, hgrow, h]
    | some wl =>
        by_cases hmem : t ∈ wl.granted
        · cases hlst : wl.lst with
          | nil => simp [Unlock, hstrict, hgrow, h, hmem, hlst]
          | cons next rest =>
              cases ht : next.target_state <;>
                simp [Unlock, hstrict, hgrow, h, hmem, hlst, ht]
        · simp [Unlock, hstrict, hgrow, h, hmem]
  · -- strict 2PL: success implies a terminal transaction state
    intro hstrict hok
    by_contra hterm
    simp [Unlock, hstrict, hterm] at hok
  · -- strict 2PL: non-terminal state means the unlock fails
    intro hstrict hterm
    simp [Unlock, hstrict, hterm]

/-- C10. Under non-strict 2PL, `Unlock` on a RID the (GROWING)
transaction does not hold returns false yet still moves the transaction
to SHRINKING: the phase transition happens before the held-lock check. -/
theorem c10_failed_unlock_still_shrinks (s : LMState) (t : TxnId) (r : RID)
    (hstrict : s.strict2PL = false) (hgrow : s.txn_state t = .growing)
    (hnot : t ∉ grantedOf s r) :
    (Unlock s t r false).2 = false ∧
    (Unlock s t r false).1.txn_state t = .shrinking := by
  cases h : s.lock_map r with
  | none => constructor <;> simp [Unlock, hstrict, hgrow, h]
  | some wl =>
      have hnotg : t ∉ wl.granted := by simpa [grantedOf, h] using hnot
      constructor <;> simp [Unlock, hstrict, hgrow, h, hnotg]

/-- Witness for C9 at a concrete input: txn 5 holds a shared lock on
RID 0 in a non-strict lock manager and then unlocks it. -/
theorem c9_unlock_contract_witness :
    ((grantedOf (LockShared (initLM false) 5 0).1 0).Nodup ∧
      (∀ it ∈ waitersOf (LockShared (initLM false) 5 0).1 0, it.txn_id ≠ 5)) ∧
    (((Unlock (LockShared (initLM false) 5 0).1 5 0 false).2 = true →
        (5 : TxnId) ∉ grantedOf (Unlock (LockShared (initLM false) 5 0).1 5 0 false).1 0) ∧
      ((LockShared (initLM false) 5 0).1.strict2PL = false →
        (LockShared (initLM false) 5 0).1.txn_state 5 = .growing →
        (Unlock (LockShared (initLM false) 5 0).1 5 0 false).1.txn_state 5 = .shrinking) ∧
      ((LockShared (initLM false) 5 0).1.strict2PL = true →
        (Unlock (LockShared (initLM false) 5 0).1 5 0 false).2 = true →
        ((LockShared (initLM false) 5 0).1.txn_state 5 = .committed ∨
          (LockShared (initLM false) 5 0).1.txn_state 5 = .aborted)) ∧
      ((LockShared (initLM false) 5 0).1.strict2PL = true →
        ¬((LockShared (initLM false) 5 0).1.txn_state 5 = .committed ∨
            (LockShared (initLM false) 5 0).1.txn_state 5 = .aborted) →
        (Unlock (LockShared (initLM false) 5 0).1 5 0 false).2 = false)) :=
  ⟨⟨by decide, by decide⟩, c9_unlock_contract _ 5 0 (by decide) (by decide)⟩

/-- Witness for C10 at a concrete input: txn 1 holds the only lock on
RID 0; txn 0 (GROWING, holding nothing) calls `Unlock` on it. -/
theorem c10_failed_unlock_still_shrinks_witness :
    ((LockShared (initLM false) 1 0).1.strict2PL = false ∧
      (LockShared (initLM false) 1 0).1.txn_state 0 = .growing ∧
      (0 : TxnId) ∉ grantedOf (LockShared (initLM false) 1 0).1 0) ∧
    ((Unlock (LockShared (initLM false) 1 0).1 0 0 false).2 = false ∧
      (Unlock (LockShared (initLM false) 1 0).1 0 0 false).1.txn_state 0 = .shrinking) :=
  ⟨⟨by decide, by decide, by decide⟩,
    c10_failed_unlock_still_shrinks _ 0 0 (by decide) (by decide) (by decide)⟩

end LockMgrThm

namespace ExtHash

/-- `ExtendibleHash<K,V>::Bucket` (extendible_hash.h): local depth
(constructed at 1) plus the entry vector. -/
structure Bucket (K V : Type) where
  depth : Nat
  entries : List (K × V)
deriving DecidableEq, Repr

/-- An `ExtendibleHash<K,V>` instance.  The C++ `Bucket**` directory of
pointers (with sharing across slots) is modelled as a directory of
indices `dir` into a bucket arena `arena`; `new Bucket()` appends to the
arena. -/
structure EHash (K V : Type) where
  globalDepth : Nat
  numBuckets : Nat
  bucketSize : Nat
  dir : List Nat
  arena : List (Bucket K V)
deriving DecidableEq, Repr

variable {K V : Type} [DecidableEq K]

/-- Dereference a bucket pointer. -/
def getBucket (s : EHash K V) (i : Nat) : Bucket K V :=
  s.arena.getD i ⟨1, []⟩

/-- The `ExtendibleHash(size)` constructor: global depth 1, two empty
buckets of depth 1. -/
def mkHash (K V : Type) (size : Nat) : EHash K V :=
  { globalDepth := 1, numBuckets := 2, bucketSize := size,
    dir := [0, 1], arena := [⟨1, []⟩, ⟨1, []⟩] }

/-- `ExtendibleHash::doubleBuckets` (extendible_hash.cpp lines 24-45):
copy each slot to `i` and `i + curSize`, bump the global depth, double
`numBuckets`. -/
def doubleBuckets (s : EHash K V) : EHash K V :=
  { s with dir := s.dir ++ s.dir,
           globalDepth := s.globalDepth + 1,
           numBuckets := 2 * s.numBuckets }

/-- `ExtendibleHash::isFull`: strict overflow test `size > bucketSize`. -/
def isFull (s : EHash K V) (b : Bucket K V) : Bool :=
  decide (b.entries.length > s.bucketSize)

/-- `ExtendibleHash::BucketIndex`: `h & ((1 << globalDepth) - 1)`. -/
def BucketIndex (s : EHash K V) (h : Nat) : Nat :=
  h &&& ((1 <<< s.globalDepth) - 1)

/-- Linear scan of a bucket's entry vector, as in `Find`: the first
matching entry wins. -/
def findEntry : List (K × V) → K → Option V
  | [], _ => none
  | (k, v) :: rest, key => if k = key then some v else findEntry rest key

/-- The bucket pointer the source resolves for a key:
`buckets[BucketIndex(HashKey(key))]`. -/
def bucketIdFor (hashFn : K → Nat) (s : EHash K V) (key : K) : Nat :=
  s.dir.getD (BucketIndex s (hashFn key)) 0

/-- `ExtendibleHash::Find` (lines 97-109). -/
def Find (hashFn : K → Nat) (s : EHash K V) (key : K) : Option V :=
  findEntry (getBucket s (bucketIdFor hashFn s key)).entries key

/-- Erase the first entry with the given key, reporting whether one was
erased, as in the `Remove` scan loop. -/
def eraseFirst : List (K × V) → K → List (K × V) × Bool
  | [], _ => ([], false)
  | (k, v) :: rest, key =>
      if k = key then (rest, true)
      else
        let p := eraseFirst rest key
        ((k, v) :: p.1, p.2)

/-- `ExtendibleHash::Remove` (lines 115-133). -/
def Remove (hashFn : K → Nat) (s : EHash K V) (key : K) : EHash K V × Bool :=
  let bid := bucketIdFor hashFn s key
  let bucket := getBucket s bid
  let p := eraseFirst bucket.entries key
  ({ s with arena := s.arena.set bid { bucket with entries := p.1 } }, p.2)

/-- Split a full bucket's entries at `diffBit`: entries whose hash has
the bit clear stay in the bit-0 half, the others go to the bit-1 half
(both keeping their relative order), exactly as the two symmetric
erase/push_back loops in `redist` do. -/
def partitionByBit (hashFn : K → Nat) (diffBit : Nat) (es : List (K × V)) :
    List (K × V) × List (K × V) :=
  (es.filter (fun e => (hashFn e.1 &&& diffBit) == 0),
   es.filter (fun e => (hashFn e.1 &&& diffBit) != 0))

/-- Body of one `redist` while-iteration after the doubling decision
(extendible_hash.cpp lines 148-200): split the full bucket at
`diffBit`, allocate the new half, rewire the two directory slots, and
pick the next full bucket if either half still overflows.  `bucketId`
is the directory index of the inserted key, computed before doubling as
in the source. -/
def redistStepCore (s : EHash K V) (fullId : Nat) (bucketId : Nat)
    (hashFn : K → Nat) : EHash K V × Option Nat :=
  let curDepth := (getBucket s fullId).depth
  let diffBit := 1 <<< curDepth
  let full := getBucket s fullId
  let p := partitionByBit hashFn diffBit full.entries
  let keepFullIsB0 := bucketId &&& diffBit == 0
  let newId := s.arena.length
  let arena' :=
    if keepFullIsB0 then
      (s.arena.set fullId { depth := curDepth + 1, entries := p.1 }) ++
        [{ depth := curDepth + 1, entries := p.2 }]
    else
      (s.arena.set fullId { depth := curDepth + 1, entries := p.2 }) ++
        [{ depth := curDepth + 1, entries := p.1 }]
  let b0Id := if keepFullIsB0 then fullId else newId
  let b1Id := if keepFullIsB0 then newId else fullId
  let dir' :=
    if keepFullIsB0 then
      (s.dir.set bucketId b0Id).set ((bucketId + diffBit) % s.numBuckets) b1Id
    else
      (s.dir.set bucketId b1Id).set ((bucketId + diffBit) % s.numBuckets) b0Id
  let s' := { s with arena := arena', dir := dir' }
  let next :=
    if isFull s' (getBucket s' b0Id) then some b0Id
    else if isFull s' (getBucket s' b1Id) then some b1Id
    else none
  (s', next)

/-- One `redist` while-iteration (lines 140-201): recompute the key's
directory index, double the directory if the full bucket's local depth
has reached the global depth, then split. -/
def redistStep (hashFn : K → Nat) (key : K) (s : EHash K V) (fullId : Nat) :
    EHash K V × Option Nat :=
  let bucketId := BucketIndex s (hashFn key)
  let s1 := if (getBucket s fullId).depth == s.globalDepth then doubleBuckets s else s
  redistStepCore s1 fullId bucketId hashFn

/-- The `redist` while-loop, with explicit fuel (the C++ loop can fail
to terminate when entries never hash apart). -/
def redistLoop (hashFn : K → Nat) (key : K) : Nat → EHash K V → Option Nat → EHash K V
  | _, s, none => s
  | 0, s, some _ => s
  | fuel + 1, s, some fid =>
      let p := redistStep hashFn key s fid
      redistLoop hashFn key fuel p.1 p.2

/-- `ExtendibleHash::Insert` (lines 210-223): push the pair at the back
of the key's bucket, then redistribute if the bucket overflows. -/
def Insert (hashFn : K → Nat) (s : EHash K V) (key : K) (value : V)
    (fuel : Nat) : EHash K V :=
  let bid := bucketIdFor hashFn s key
  let bucket := getBucket s bid
  let bucket' := { bucket with entries := bucket.entries ++ [(key, value)] }
  let s' := { s with arena := s.arena.set bid bucket' }
  if isFull s' bucket' then redistLoop hashFn key fuel s' (some bid) else s'

theorem findEntry_append_none (es l : List (K × V)) (key : K)
    (h : findEntry es key = none) : findEntry (es ++ l) key = findEntry l key := by
  induction es with
  | nil => rfl
  | cons e rest ih =>
      obtain ⟨k, v⟩ := e
      by_cases hk : k = key
      · simp [findEntry, hk] at h
      · simp only [findEntry, hk, if_false] at h
        simp [findEntry, hk, ih h]

theorem eraseFirst_append_none (es l : List (K × V)) (key : K)
    (h : findEntry es key = none) :
    eraseFirst (es ++ l) key = (es ++ (eraseFirst l key).1, (eraseFirst l key).2) := by
  induction es with
  | nil => simp [eraseFirst]
  | cons e rest ih =>
      obtain ⟨k, v⟩ := e
      by_cases hk : k = key
      · simp [findEntry, hk] at h
      · simp only [findEntry, hk, if_false] at h
        simp [eraseFirst, hk, ih h]

theorem getBucket_set_self (s : EHash K V) (i : Nat) (b : Bucket K V)
    (h : i < s.arena.length) :
    getBucket { s with arena := s.arena.set i b } i = b := by
  simp [getBucket, List.getD, List.getElem?_set_self', h]

/-- Overwrite one bucket's entry vector in place (the effect of pushing
into or erasing from a bucket reached through a pointer). -/
def setBucketEntries (s : EHash K V) (bid : Nat) (es : List (K × V)) : EHash K V :=
  { s with arena := s.arena.set bid ({ getBucket s bid with entries := es }) }

theorem setBucketEntries_arena_length (s : EHash K V) (bid : Nat) (es : List (K × V)) :
    (setBucketEntries s bid es).arena.length = s.arena.length := by
  simp [setBucketEntries]

theorem getBucket_setBucketEntries_self (s : EHash K V) (bid : Nat) (es : List (K × V))
    (h : bid < s.arena.length) :
    getBucket (setBucketEntries s bid es) bid = { getBucket s bid with entries := es } :=
  getBucket_set_self s bid _ h

/-- `Insert` on a bucket that still has room is a plain push_back: no
redistribution happens. -/
theorem Insert_no_split (hashFn : K → Nat) (s : EHash K V) (key : K) (value : V)
    (fuel : Nat)
    (hno : (getBucket s (bucketIdFor hashFn s key)).entries.length + 1 ≤ s.bucketSize) :
    Insert hashFn s key value fuel =
      setBucketEntries s (bucketIdFor hashFn s key)
        ((getBucket s (bucketIdFor hashFn s key)).entries ++ [(key, value)]) := by
  unfold Insert setBucketEntries
  simp only [isFull, List.length_append, List.length_singleton]
  rw [if_neg]
  simp only [decide_eq_true_eq, not_lt]
  omega

end ExtHash

namespace ExtHashThm
open ExtHash

/-- C7 counterexample: with bucket size 2, insert key 0 with value 10
and then key 0 with value 20 into a fresh table; `Find` still returns
10, not the newly inserted 20, because `Insert` appends and `Find`
returns the first match. -/
theorem c7_find_after_reinsert_counterexample :
    Find id (Insert id (Insert id (mkHash Nat Nat 2) 0 10 9) 0 20 9) 0 = some 10 ∧
    Find id (Insert id (Insert id (mkHash Nat Nat 2) 0 10 9) 0 20 9) 0 ≠ some 20 := by
  decide

/-- C7 amended: for any table state whose bucket for `key` does not yet
contain `key` and has room for two more entries (so neither insertion
splits), `Find` returns `v` after `Insert(key, v)`; a later
`Insert(key, v')` appends a second entry and `Find` still returns `v`
(not `v'`); only after `Remove(key)` — which erases the first matching
entry — does `Find` return `v'`. -/
theorem c7_amended_insert_find (hashFn : K → Nat) [DecidableEq K] (s : EHash K V)
    (key : K) (v v' : V) (fuel fuel' : Nat)
    (hbid : bucketIdFor hashFn s key < s.arena.length)
    (habsent : findEntry (getBucket s (bucketIdFor hashFn s key)).entries key = none)
    (hroom : (getBucket s (bucketIdFor hashFn s key)).entries.length + 2 ≤ s.bucketSize) :
    Find hashFn (Insert hashFn s key v fuel) key = some v ∧
    Find hashFn (Insert hashFn (Insert hashFn s key v fuel) key v' fuel') key = some v ∧
    Find hashFn
      (Remove hashFn (Insert hashFn (Insert hashFn s key v fuel) key v' fuel') key).1
      key = some v' := by
  have hb1 : (getBucket s (bucketIdFor hashFn s key)).entries.length + 1 ≤ s.bucketSize := by
    omega
  have h1 := Insert_no_split hashFn s key v fuel hb1
  set bid := bucketIdFor hashFn s key with hbiddef
  set es := (getBucket s bid).entries with hesdef
  set s1 := setBucketEntries s bid (es ++ [(key, v)]) with hs1def
  have hlen1 : s1.arena.length = s.arena.length := setBucketEntries_arena_length s bid _
  have hget1 : getBucket s1 bid = { getBucket s bid with entries := es ++ [(key, v)] } :=
    getBucket_setBucketEntries_self s bid _ hbid
  have hbid1 : bucketIdFor hashFn s1 key = bid := rfl
  have hfind1 : Find hashFn s1 key = some v := by
    show findEntry (getBucket s1 (bucketIdFor hashFn s1 key)).entries key = some v
    rw [hbid1, hget1]
    show findEntry (es ++ [(key, v)]) key = some v
    rw [findEntry_append_none _ _ _ habsent]
    simp [findEntry]
  have hb2 : (getBucket s1 (bucketIdFor hashFn s1 key)).entries.length + 1 ≤ s1.bucketSize := by
    rw [hbid1, hget1]
    show (es ++ [(key, v)]).length + 1 ≤ s.bucketSize
    simp only [List.length_append, List.length_singleton]
    omega
  have h2 := Insert_no_split hashFn s1 key v' fuel' hb2
  rw [hbid1, hget1] at h2
  set s2 := setBucketEntries s1 bid ((es ++ [(key, v)]) ++ [(key, v')]) with hs2def
  have hget2 : getBucket s2 bid =
      { getBucket s1 bid with entries := (es ++ [(key, v)]) ++ [(key, v')] } :=
    getBucket_setBucketEntries_self s1 bid _ (by rw [hlen1]; exact hbid)
  have hbid2 : bucketIdFor hashFn s2 key = bid := rfl
  have hfind2 : Find hashFn s2 key = some v := by
    show findEntry (getBucket s2 (bucketIdFor hashFn s2 key)).entries key = some v
    rw [hbid2, hget2]
    show findEntry ((es ++ [(key, v)]) ++ [(key, v')]) key = some v
    rw [List.append_assoc, findEntry_append_none _ _ _ habsent]
    simp [findEntry]
  have herase : eraseFirst ((es ++ [(key, v)]) ++ [(key, v')]) key =
      (es ++ [(key, v')], true) := by
    rw [List.append_assoc, eraseFirst_append_none _ _ _ habsent]
    simp [eraseFirst]
  have hrem : (Remove hashFn s2 key).1 =
      setBucketEntries s2 bid (eraseFirst (getBucket s2 bid).entries key).1 := rfl
  have hfind3 : Find hashFn (Remove hashFn s2 key).1 key = some v' := by
    rw [Find, hrem, hget2]
    show findEntry
      (getBucket (setBucketEntries s2 bid
        (eraseFirst ((es ++ [(key, v)]) ++ [(key, v')]) key).1) bid).entries key = some v'
    rw [herase]
    have hget3 : getBucket (setBucketEntries s2 bid (es ++ [(key, v')])) bid =
        { getBucket s2 bid with entries := es ++ [(key, v')] } :=
      getBucket_setBucketEntries_self s2 bid _
        (by rw [setBucketEntries_arena_length, hlen1]; exact hbid)
    rw [hget3]
    show findEntry (es ++ [(key, v')]) key = some v'
    rw [findEntry_append_none _ _ _ habsent]
    simp [findEntry]
  refine ⟨?_, ?_, ?_⟩
  · rw [h1]; exact hfind1
  · rw [h1, h2]; exact hfind2
  · rw [h1, h2]; exact hfind3

/-- Witness for the amended C7 at a concrete input: a fresh table with
bucket size 2, key 0, values 10 then 20. -/
theorem c7_amended_insert_find_witness :
    (bucketIdFor id (mkHash Nat Nat 2) 0 < (mkHash Nat Nat 2).arena.length ∧
      findEntry (getBucket (mkHash Nat Nat 2)
        (bucketIdFor id (mkHash Nat Nat 2) 0)).entries 0 = none ∧
      (getBucket (mkHash Nat Nat 2)
        (bucketIdFor id (mkHash Nat Nat 2) 0)).entries.length + 2 ≤
        (mkHash Nat Nat 2).bucketSize) ∧
    (Find id (Insert id (mkHash Nat Nat 2) 0 10 9) 0 = some 10 ∧
      Find id (Insert id (Insert id (mkHash Nat Nat 2) 0 10 9) 0 20 9) 0 = some 10 ∧
      Find id (Remove id (Insert id (Insert id (mkHash Nat Nat 2) 0 10 9) 0 20 9) 0).1 0 =
        some 20) :=
  ⟨⟨by decide, by decide, by decide⟩,
    c7_amended_insert_find id (mkHash Nat Nat 2) 0 10 20 9 9
      (by decide) (by decide) (by decide)⟩

/-- C8. When `redist` meets a full bucket whose local depth equals the
global depth, the directory is doubled first: slot `i` and slot
`i + old_size` of the doubled directory reference the same bucket as
old slot `i`, the global depth grows by exactly one, and the bucket
arena — hence every bucket's local depth — is untouched by the
doubling itself; the rest of the split step then runs on the doubled
state. -/
theorem c8_directory_doubling (s : EHash K V) (hashFn : K → Nat) (key : K) (fullId : Nat)
    (hlen : s.dir.length = s.numBuckets)
    (hfull : isFull s (getBucket s fullId) = true)
    (hdepth : (getBucket s fullId).depth = s.globalDepth) :
    (∀ i < s.numBuckets,
        (doubleBuckets s).dir.getD i 0 = s.dir.getD i 0 ∧
        (doubleBuckets s).dir.getD (i + s.numBuckets) 0 = s.dir.getD i 0) ∧
    (doubleBuckets s).globalDepth = s.globalDepth + 1 ∧
    (doubleBuckets s).arena = s.arena ∧
    redistStep hashFn key s fullId =
      redistStepCore (doubleBuckets s) fullId (BucketIndex s (hashFn key)) hashFn := by
  refine ⟨?_, rfl, rfl, ?_⟩
  · intro i hi
    constructor
    · show (s.dir ++ s.dir).getD i 0 = s.dir.getD i 0
      exact List.getD_append _ _ _ _ (by omega)
    · show (s.dir ++ s.dir).getD (i + s.numBuckets) 0 = s.dir.getD i 0
      rw [List.getD_append_right _ _ _ _ (by omega)]
      congr 1
      omega
  · simp [redistStep, hdepth]

/-- A reachable overflowing configuration: keys 0 and 2 pushed into a
bucket-size-1 table with redistribution fuel 0, leaving bucket 0 full
at local depth 1 = global depth 1. -/
def c8S : EHash Nat Nat :=
  Insert id (Insert id (mkHash Nat Nat 1) 0 0 0) 2 0 0

/-- Witness for C8 at the concrete overflowing configuration `c8S`. -/
theorem c8_directory_doubling_witness :
    (c8S.dir.length = c8S.numBuckets ∧
      isFull c8S (getBucket c8S 0) = true ∧
      (getBucket c8S 0).depth = c8S.globalDepth) ∧
    ((∀ i < c8S.numBuckets,
        (doubleBuckets c8S).dir.getD i 0 = c8S.dir.getD i 0 ∧
        (doubleBuckets c8S).dir.getD (i + c8S.numBuckets) 0 = c8S.dir.getD i 0) ∧
      (doubleBuckets c8S).globalDepth = c8S.globalDepth + 1 ∧
      (doubleBuckets c8S).arena = c8S.arena ∧
      redistStep id 2 c8S 0 =
        redistStepCore (doubleBuckets c8S) 0 (BucketIndex c8S 2) id) :=
  ⟨⟨by decide, by decide, by decide⟩,
    c8_directory_doubling c8S id 2 0 (by decide) (by decide) (by decide)⟩

end ExtHashThm

namespace Recovery

/-- `lsn_t` (`INVALID_LSN = -1`). -/
abbrev Lsn := Int

abbrev PageIdR := Int

abbrev TxnIdR := Int

/-- RID: page id plus slot number. -/
structure RidR where
  pageId : PageIdR
  slot : Nat
deriving DecidableEq, Repr

/-- Opaque tuple payload. -/
abbrev Tuple := Nat

/-- A deserialized `LogRecord` (logging/log_record.h): header fields
(lsn, txn id, prev lsn in the txn chain) plus the type-specific
payload. -/
inductive LogRec where
  | beginTxn (lsn : Lsn) (txn : TxnIdR) (prev : Lsn)
  | commitTxn (lsn : Lsn) (txn : TxnIdR) (prev : Lsn)
  | abortTxn (lsn : Lsn) (txn : TxnIdR) (prev : Lsn)
  | insertRec (lsn : Lsn) (txn : TxnIdR) (prev : Lsn) (rid : RidR) (tuple : Tuple)
  | applyDeleteRec (lsn : Lsn) (txn : TxnIdR) (prev : Lsn) (rid : RidR) (tuple : Tuple)
  | markDeleteRec (lsn : Lsn) (txn : TxnIdR) (prev : Lsn) (rid : RidR)
  | rollbackDeleteRec (lsn : Lsn) (txn : TxnIdR) (prev : Lsn) (rid : RidR)
  | updateRec (lsn : Lsn) (txn : TxnIdR) (prev : Lsn) (rid : RidR) (oldT newT : Tuple)
  | newPageRec (lsn : Lsn) (txn : TxnIdR) (prev : Lsn) (prevPageId : PageIdR)
deriving DecidableEq, Repr

/-- Modelled from the spec: a `TablePage` (table/table_page.{h,cpp} are
not among the provided sources).  Per the spec a page carries the LSN
of the latest log record whose effect is present, and slots holding
tuples; `MarkDelete` flags a slot, `RollbackDelete` unflags it,
`ApplyDelete` frees it, `InsertTuple`/`UpdateTuple` write a tuple. -/
structure TPage where
  lsn : Lsn
  slots : Nat → Option (Tuple × Bool)

/-- Modelled from the spec: `TablePage::InsertTuple`. -/
def TPage.insertTuple (p : TPage) (t : Tuple) (rid : RidR) : TPage :=
  { p with slots := fun i => if i = rid.slot then some (t, false) else p.slots i }

/-- Modelled from the spec: `TablePage::UpdateTuple(new, old, rid)`
writes the first argument at the slot. -/
def TPage.updateTuple (p : TPage) (newT : Tuple) (rid : RidR) : TPage :=
  { p with slots := fun i => if i = rid.slot then some (newT, false) else p.slots i }

/-- Modelled from the spec: `TablePage::MarkDelete`. -/
def TPage.markDelete (p : TPage) (rid : RidR) : TPage :=
  { p with slots := fun i =>
      if i = rid.slot then (p.slots i).map (fun tv => (tv.1, true)) else p.slots i }

/-- Modelled from the spec: `TablePage::RollbackDelete`. -/
def TPage.rollbackDelete (p : TPage) (rid : RidR) : TPage :=
  { p with slots := fun i =>
      if i = rid.slot then (p.slots i).map (fun tv => (tv.1, false)) else p.slots i }

/-- Modelled from the spec: `TablePage::ApplyDelete`. -/
def TPage.applyDelete (p : TPage) (rid : RidR) : TPage :=
  { p with slots := fun i => if i = rid.slot then none else p.slots i }

/-- Modelled from the spec: `TablePage::Init`. -/
def TPage.initPage : TPage :=
  { lsn := -1, slots := fun _ => none }

def mapUpd {α : Type} (f : Int → Option α) (k : Int) (v : α) : Int → Option α :=
  fun k' => if k' = k then some v else f k'

def mapErase {α : Type} (f : Int → Option α) (k : Int) : Int → Option α :=
  fun k' => if k' = k then none else f k'

def pageUpd (pages : PageIdR → TPage) (pid : PageIdR) (p : TPage) : PageIdR → TPage :=
  fun pid' => if pid' = pid then p else pages pid'

/-- State threaded through `LogRecovery::Redo`'s inner
`while (DeserializeLogRecord(...))` loop: the read pointer into the
serialized log (as a record index), the `active_txn_` and
`lsn_mapping_` tables, and the buffer pool's pages. -/
structure RedoState where
  pos : Nat
  active_txn : TxnIdR → Option Lsn
  lsn_mapping : Lsn → Option Nat
  pages : PageIdR → TPage

/-- End-of-iteration bookkeeping (log_recovery.cpp lines 133-135):
record this record's start offset in `lsn_mapping_` and advance the
read pointer. -/
def RedoState.advance (st : RedoState) (lsn : Lsn) : RedoState :=
  { st with lsn_mapping := mapUpd st.lsn_mapping lsn st.pos, pos := st.pos + 1 }

/-- `LogRecovery::Redo`'s inner loop (log_recovery.cpp lines 72-136),
with explicit fuel; `none` means the fuel ran out with the loop still
running.  Faithful to the source's control flow: on a data record whose
page LSN is ≥ the record LSN, the `continue` statement re-enters the
`while` without advancing the read pointer (and without recording the
`lsn_mapping_` entry), so the same record is deserialized again. -/
def redoLoop (records : List LogRec) : Nat → RedoState → Option RedoState
  | 0, _ => none
  | fuel + 1, st =>
    match records.get? st.pos with
    | none => some st
    | some rec =>
      match rec with
      | .beginTxn lsn txn _ =>
          redoLoop records fuel
            (RedoState.advance { st with active_txn := mapUpd st.active_txn txn lsn } lsn)
      | .commitTxn lsn txn _ =>
          redoLoop records fuel
            (RedoState.advance { st with active_txn := mapErase st.active_txn txn } lsn)
      | .abortTxn lsn txn _ =>
          redoLoop records fuel
            (RedoState.advance { st with active_txn := mapErase st.active_txn txn } lsn)
      | .insertRec lsn txn _ rid tuple =>
          let st1 := { st with active_txn := mapUpd st.active_txn txn lsn }
          if (st1.pages rid.pageId).lsn ≥ lsn then
            redoLoop records fuel st1
          else
            let p' := (st1.pages rid.pageId).insertTuple tuple rid
            redoLoop records fuel
              (RedoState.advance { st1 with pages := pageUpd st1.pages rid.pageId p' } lsn)
      | .updateRec lsn txn _ rid _oldT newT =>
          let st1 := { st with active_txn := mapUpd st.active_txn txn lsn }
          if (st1.pages rid.pageId).lsn ≥ lsn then
            redoLoop records fuel st1
          else
            let p' := (st1.pages rid.pageId).updateTuple newT rid
            redoLoop records fuel
              (RedoState.advance { st1 with pages := pageUpd st1.pages rid.pageId p' } lsn)
      | .markDeleteRec lsn txn _ rid =>
          let st1 := { st with active_txn := mapUpd st.active_txn txn lsn }
          if (st1.pages rid.pageId).lsn ≥ lsn then
            redoLoop records fuel st1
          else
            let p' := (st1.pages rid.pageId).markDelete rid
            redoLoop records fuel
              (RedoState.advance { st1 with pages := pageUpd st1.pages rid.pageId p' } lsn)
      | .rollbackDeleteRec lsn txn _ rid =>
          let st1 := { st with active_txn := mapUpd st.active_txn txn lsn }
          if (st1.pages rid.pageId).lsn ≥ lsn then
            redoLoop records fuel st1
          else
            let p' := (st1.pages rid.pageId).rollbackDelete rid
            redoLoop records fuel
              (RedoState.advance { st1 with pages := pageUpd st1.pages rid.pageId p' } lsn)
      | .applyDeleteRec lsn txn _ rid _tuple =>
          let st1 := { st with active_txn := mapUpd st.active_txn txn lsn }
          if (st1.pages rid.pageId).lsn ≥ lsn then
            redoLoop records fuel st1
          else
            let p' := (st1.pages rid.pageId).applyDelete rid
            redoLoop records fuel
              (RedoState.advance { st1 with pages := pageUpd st1.pages rid.pageId p' } lsn)
      | .newPageRec lsn txn _ pid =>
          let st1 := { st with active_txn := mapUpd st.active_txn txn lsn }
          redoLoop records fuel
            (RedoState.advance { st1 with pages := pageUpd st1.pages pid TPage.initPage } lsn)

/-- The redo LSN-check guard of a data record in state `st`: true when
the target page's LSN is at least the record's LSN (the record's effect
is already present).  Non-data records never take the guard. -/
def skipGuard (st : RedoState) (rec : LogRec) : Bool :=
  match rec with
  | .insertRec lsn _ _ rid _ => decide ((st.pages rid.pageId).lsn ≥ lsn)
  | .updateRec lsn _ _ rid _ _ => decide ((st.pages rid.pageId).lsn ≥ lsn)
  | .markDeleteRec lsn _ _ rid => decide ((st.pages rid.pageId).lsn ≥ lsn)
  | .rollbackDeleteRec lsn _ _ rid => decide ((st.pages rid.pageId).lsn ≥ lsn)
  | .applyDeleteRec lsn _ _ rid _ => decide ((st.pages rid.pageId).lsn ≥ lsn)
  | _ => false

/-- One loser transaction's undo walk (`LogRecovery::Undo`,
log_recovery.cpp lines 150-192), with explicit fuel: follow
`lsn_mapping_` to the record, invert INSERT / MARKDELETE / UPDATE, then
step to the record's prev LSN, stopping at `INVALID_LSN`; as in the
source, a data record whose page LSN is ≥ the record LSN hits
`continue`, which re-enters `while (true)` with `lsn` unchanged.
`lsn_mapping_[lsn]` on an unmapped LSN value default-constructs offset
0, modelled by `getD 0`. -/
def undoChain (records : List LogRec) (lsn_mapping : Lsn → Option Nat) :
    Nat → Lsn → (PageIdR → TPage) → Option (PageIdR → TPage)
  | 0, _, _ => none
  | fuel + 1, lsn, pages =>
    match records.get? ((lsn_mapping lsn).getD 0) with
    | none => some pages
    | some rec =>
      match rec with
      | .insertRec rlsn _ prev rid _tuple =>
          if (pages rid.pageId).lsn ≥ rlsn then
            undoChain records lsn_mapping fuel lsn pages
          else
            let pages' := pageUpd pages rid.pageId ((pages rid.pageId).applyDelete rid)
            if prev = -1 then some pages'
            else undoChain records lsn_mapping fuel prev pages'
      | .markDeleteRec rlsn _ prev rid =>
          if (pages rid.pageId).lsn ≥ rlsn then
            undoChain records lsn_mapping fuel lsn pages
          else
            let pages' := pageUpd pages rid.pageId ((pages rid.pageId).rollbackDelete rid)
            if prev = -1 then some pages'
            else undoChain records lsn_mapping fuel prev pages'
      | .updateRec rlsn _ prev rid oldT _newT =>
          if (pages rid.pageId).lsn ≥ rlsn then
            undoChain records lsn_mapping fuel lsn pages
          else
            let pages' := pageUpd pages rid.pageId ((pages rid.pageId).updateTuple oldT rid)
            if prev = -1 then some pages'
            else undoChain records lsn_mapping fuel prev pages'
      | .beginTxn _ _ prev =>
          if prev = -1 then some pages else undoChain records lsn_mapping fuel prev pages
      | .commitTxn _ _ prev =>
          if prev = -1 then some pages else undoChain records lsn_mapping fuel prev pages
      | .abortTxn _ _ prev =>
          if prev = -1 then some pages else undoChain records lsn_mapping fuel prev pages
      | .applyDeleteRec _ _ prev _ _ =>
          if prev = -1 then some pages else undoChain records lsn_mapping fuel prev pages
      | .rollbackDeleteRec _ _ prev _ =>
          if prev = -1 then some pages else undoChain records lsn_mapping fuel prev pages
      | .newPageRec _ _ prev _ =>
          if prev = -1 then some pages else undoChain records lsn_mapping fuel prev pages

/-- The undo LSN-check guard: true when the record is one of the three
inverted types and the target page's LSN is at least the record's LSN
(the normal situation for an effect already flushed to the page). -/
def undoSkipGuard (pages : PageIdR → TPage) (rec : LogRec) : Bool :=
  match rec with
  | .insertRec rlsn _ _ rid _ => decide ((pages rid.pageId).lsn ≥ rlsn)
  | .markDeleteRec rlsn _ _ rid => decide ((pages rid.pageId).lsn ≥ rlsn)
  | .updateRec rlsn _ _ rid _ _ => decide ((pages rid.pageId).lsn ≥ rlsn)
  | _ => false

end Recovery

namespace RecoveryThm
open Recovery

/-- C5. The redo pass does NOT skip to the next log record when a data
record's target page already carries `page.lsn ≥ rec.lsn`: the
`continue` statement inside the `switch` re-enters the deserialization
loop without advancing the log pointer, so the same record is processed
forever — for any fuel the loop is still running (`none`), for every
data record type. -/
theorem c5_redo_skip_never_advances (records : List LogRec) (rec : LogRec) :
    ∀ (fuel : Nat) (st : RedoState),
      records[st.pos]? = some rec → skipGuard st rec = true →
      redoLoop records fuel st = none := by
  intro fuel
  induction fuel with
  | zero => intro st _ _; rfl
  | succ n ih =>
      intro st hrec hskip
      cases rec with
      | insertRec lsn txn prev rid tuple =>
          have hge : (st.pages rid.pageId).lsn ≥ lsn := by simpa [skipGuard] using hskip
          have hstep : redoLoop records (n + 1) st =
              redoLoop records n { st with active_txn := mapUpd st.active_txn txn lsn } := by
            simp [redoLoop, hrec, hge]
          rw [hstep]
          exact ih _ hrec hskip
      | updateRec lsn txn prev rid oldT newT =>
          have hge : (st.pages rid.pageId).lsn ≥ lsn := by simpa [skipGuard] using hskip
          have hstep : redoLoop records (n + 1) st =
              redoLoop records n { st with active_txn := mapUpd st.active_txn txn lsn } := by
            simp [redoLoop, hrec, hge]
          rw [hstep]
          exact ih _ hrec hskip
      | markDeleteRec lsn txn prev rid =>
          have hge : (st.pages rid.pageId).lsn ≥ lsn := by simpa [skipGuard] using hskip
          have hstep : redoLoop records (n + 1) st =
              redoLoop records n { st with active_txn := mapUpd st.active_txn txn lsn } := by
            simp [redoLoop, hrec, hge]
          rw [hstep]
          exact ih _ hrec hskip
      | rollbackDeleteRec lsn txn prev rid =>
          have hge : (st.pages rid.pageId).lsn ≥ lsn := by simpa [skipGuard] using hskip
          have hstep : redoLoop records (n + 1) st =
              redoLoop records n { st with active_txn := mapUpd st.active_txn txn lsn } := by
            simp [redoLoop, hrec, hge]
          rw [hstep]
          exact ih _ hrec hskip
      | applyDeleteRec lsn txn prev rid tuple =>
          have hge : (st.pages rid.pageId).lsn ≥ lsn := by simpa [skipGuard] using hskip
          have hstep : redoLoop records (n + 1) st =
              redoLoop records n { st with active_txn := mapUpd st.active_txn txn lsn } := by
            simp [redoLoop, hrec, hge]
          rw [hstep]
          exact ih _ hrec hskip
      | beginTxn lsn txn prev => simp [skipGuard] at hskip
      | commitTxn lsn txn prev => simp [skipGuard] at hskip
      | abortTxn lsn txn prev => simp [skipGuard] at hskip
      | newPageRec lsn txn prev pid => simp [skipGuard] at hskip

/-- The log used in the C5 witness: one INSERT by txn 7 at LSN 1. -/
def c5Records : List LogRec := [.insertRec 1 7 (-1) ⟨2, 0⟩ 42]

/-- Initial redo state for the C5 witness: page 2 was flushed with
LSN 5 ≥ 1, making the record's effect already present. -/
def c5St : RedoState :=
  { pos := 0
    active_txn := fun _ => none
    lsn_mapping := fun _ => none
    pages := fun pid =>
      if pid = 2 then { lsn := 5, slots := fun _ => none }
      else { lsn := -1, slots := fun _ => none } }

/-- Witness for C5 at a concrete input: redoing the one-record log over
a page with LSN 5 never terminates (fuel 100 shown via the theorem). -/
theorem c5_redo_skip_never_advances_witness :
    (c5Records[c5St.pos]? = some (.insertRec 1 7 (-1) ⟨2, 0⟩ 42) ∧
      skipGuard c5St (.insertRec 1 7 (-1) ⟨2, 0⟩ 42) = true) ∧
    redoLoop c5Records 100 c5St = none :=
  ⟨⟨by decide, by decide⟩,
    c5_redo_skip_never_advances c5Records (.insertRec 1 7 (-1) ⟨2, 0⟩ 42) 100 c5St
      (by decide) (by decide)⟩

/-- C6. The undo walk does not invert a record whose target page
carries `page.lsn ≥ rec.lsn` (the normal situation for an effect that
reached the disk, which is exactly when undo is needed): the same
`continue`-in-`switch` pattern re-enters `while (true)` with `lsn`
unchanged, so the walk re-reads the same record forever instead of
inverting it and following the prev-LSN chain. -/
theorem c6_undo_skip_never_advances (records : List LogRec)
    (mapping : Lsn → Option Nat) (rec : LogRec) (lsn : Lsn) :
    ∀ (fuel : Nat) (pages : PageIdR → TPage),
      records[(mapping lsn).getD 0]? = some rec →
      undoSkipGuard pages rec = true →
      undoChain records mapping fuel lsn pages = none := by
  intro fuel
  induction fuel with
  | zero => intro pages _ _; rfl
  | succ n ih =>
      intro pages hrec hskip
      cases rec with
      | insertRec rlsn txn prev rid tuple =>
          have hge : (pages rid.pageId).lsn ≥ rlsn := by simpa [undoSkipGuard] using hskip
          have hstep : undoChain records mapping (n + 1) lsn pages =
              undoChain records mapping n lsn pages := by
            simp [undoChain, hrec, hge]
          rw [hstep]
          exact ih pages hrec hskip
      | markDeleteRec rlsn txn prev rid =>
          have hge : (pages rid.pageId).lsn ≥ rlsn := by simpa [undoSkipGuard] using hskip
          have hstep : undoChain records mapping (n + 1) lsn pages =
              undoChain records mapping n lsn pages := by
            simp [undoChain, hrec, hge]
          rw [hstep]
          exact ih pages hrec hskip
      | updateRec rlsn txn prev rid oldT newT =>
          have hge : (pages rid.pageId).lsn ≥ rlsn := by simpa [undoSkipGuard] using hskip
          have hstep : undoChain records mapping (n + 1) lsn pages =
              undoChain records mapping n lsn pages := by
            simp [undoChain, hrec, hge]
          rw [hstep]
          exact ih pages hrec hskip
      | beginTxn rlsn txn prev => simp [undoSkipGuard] at hskip
      | commitTxn rlsn txn prev => simp [undoSkipGuard] at hskip
      | abortTxn rlsn txn prev => simp [undoSkipGuard] at hskip
      | applyDeleteRec rlsn txn prev rid tuple => simp [undoSkipGuard] at hskip
      | rollbackDeleteRec rlsn txn prev rid => simp [undoSkipGuard] at hskip
      | newPageRec rlsn txn prev pid => simp [undoSkipGuard] at hskip

/-- The log used in the C6 witness: loser txn 7's INSERT at LSN 1. -/
def c6Records : List LogRec := [.insertRec 1 7 (-1) ⟨2, 0⟩ 42]

/-- lsn_mapping built by redo for the C6 witness. -/
def c6Mapping : Lsn → Option Nat := fun l => if l = 1 then some 0 else none

/-- Pages for the C6 witness: page 2 carries LSN 1, i.e. the INSERT's
effect reached the page before the crash. -/
def c6Pages : PageIdR → TPage := fun pid =>
  if pid = 2 then { lsn := 1, slots := fun i => if i = 0 then some (42, false) else none }
  else { lsn := -1, slots := fun _ => none }

/-- Witness for C6 at a concrete input: undoing loser txn 7's chain
never terminates (fuel 100 shown via the theorem). -/
theorem c6_undo_skip_never_advances_witness :
    (c6Records[(c6Mapping 1).getD 0]? = some (.insertRec 1 7 (-1) ⟨2, 0⟩ 42) ∧
      undoSkipGuard c6Pages (.insertRec 1 7 (-1) ⟨2, 0⟩ 42) = true) ∧
    undoChain c6Records c6Mapping 100 1 c6Pages = none :=
  ⟨⟨by decide, by decide⟩,
    c6_undo_skip_never_advances c6Records c6Mapping (.insertRec 1 7 (-1) ⟨2, 0⟩ 42) 1 100
      c6Pages (by decide) (by decide)⟩

end RecoveryThm

namespace BPT

/- Keys are `GenericKey<n>` compared through `GenericComparator` (result
-1/0/1), instantiated with integer keys as in the test instantiations:
modelled as `Int`.  Leaf values are RIDs, modelled as `Nat`.  Page ids
(`page_id_t`, with `INVALID_PAGE_ID = -1`) are `Int`. -/

/-- `GenericComparator`: -1 / 0 / 1. -/
def cmp (a b : Int) : Int := if a < b then -1 else if a = b then 0 else 1

/-- `BPlusTreeLeafPage`: header (parent id, size, max size) plus the
sorted (key, RID) array — the array and its size are one list here —
and the `next_page_id_` leaf-chain link. -/
structure LeafPage where
  parent : Int
  maxSize : Nat
  entries : List (Int × Nat)
  next : Int
deriving DecidableEq, Repr

/-- `BPlusTreeInternalPage`: header plus the (key, child page id)
array; the key of entry 0 is the unused sentinel. -/
structure InternalPage where
  parent : Int
  maxSize : Nat
  entries : List (Int × Int)
deriving DecidableEq, Repr

/-- A `BPlusTreePage` is one of the two node kinds. -/
inductive BPage where
  | leaf : LeafPage → BPage
  | inner : InternalPage → BPage
deriving DecidableEq, Repr

def BPage.parent : BPage → Int
  | .leaf l => l.parent
  | .inner nd => nd.parent

def BPage.size : BPage → Nat
  | .leaf l => l.entries.length
  | .inner nd => nd.entries.length

def BPage.maxSize : BPage → Nat
  | .leaf l => l.maxSize
  | .inner nd => nd.maxSize

/-- Modelled from the spec: `BPlusTreePage::GetMinSize`
(b_plus_tree_page.cpp is not among the provided sources).  Per the spec
every non-root node keeps `size ≥ ⌈max/2⌉` (the *min size*; both max
sizes are even, so this is `max/2`). -/
def BPage.minSize (p : BPage) : Nat := (p.maxSize + 1) / 2

def BPage.isLeaf : BPage → Bool
  | .leaf _ => true
  | .inner _ => false

def BPage.setParent : BPage → Int → BPage
  | .leaf l, pid => .leaf { l with parent := pid }
  | .inner nd, pid => .inner { nd with parent := pid }

/-- The `KeyIndex` binary search over the key array
(b_plus_tree_leaf_page.cpp lines 55-70): first index whose key is ≥ the
probe, or the size if none; `low`/`high` are C ints and the
`(high - low) / 2` operand is nonnegative whenever it is evaluated. -/
def keyIndexGo (keys : List Int) (key : Int) (low high : Int) : Int :=
  if h : low ≤ high then
    let mid := low + (high - low) / 2
    let c := cmp (keys.getD mid.toNat 0) key
    if c = 0 then mid
    else if c = -1 then keyIndexGo keys key (mid + 1) high
    else keyIndexGo keys key low (mid - 1)
  else low
termination_by (high + 1 - low).toNat
decreasing_by
  · have h0 : 0 ≤ (high - low) / 2 := Int.ediv_nonneg (by omega) (by norm_num)
    omega
  · have h1 : (high - low) / 2 ≤ high - low := Int.ediv_le_self _ (by omega)
    omega

def LeafPage.keyIndex (l : LeafPage) (key : Int) : Int :=
  keyIndexGo (l.entries.map Prod.fst) key 0 ((l.entries.length : Int) - 1)

/-- `BPlusTreeLeafPage::Lookup` (lines 167-177).  The source compares
`array[idx].first` without re-checking `idx < GetSize()` (unlike
`Insert` and `RemoveAndDeleteRecord`); a read one slot past `size` hits
bytes no entry owns, modelled as not matching the probe key. -/
def LeafPage.lookup (l : LeafPage) (key : Int) : Option Nat :=
  if l.entries.length = 0 then none
  else
    let idx := (l.keyIndex key).toNat
    if idx < l.entries.length ∧ cmp (l.entries.getD idx (0, 0)).1 key = 0 then
      some (l.entries.getD idx (0, 0)).2
    else none

/-- `BPlusTreeLeafPage::Insert` (lines 101-130): replace the value
in place on an equal key, otherwise shift and insert at the
`KeyIndex` position. -/
def LeafPage.insert (l : LeafPage) (key : Int) (value : Nat) : LeafPage :=
  if l.entries.length = 0 then { l with entries := [(key, value)] }
  else
    let idx := (l.keyIndex key).toNat
    if idx < l.entries.length ∧ cmp (l.entries.getD idx (0, 0)).1 key = 0 then
      { l with entries := l.entries.set idx ((l.entries.getD idx (0, 0)).1, value) }
    else
      { l with entries := l.entries.insertIdx idx (key, value) }

/-- `BPlusTreeLeafPage::RemoveAndDeleteRecord` (lines 189-201). -/
def LeafPage.removeAndDeleteRecord (l : LeafPage) (key : Int) : LeafPage :=
  if l.entries.length = 0 then l
  else
    let idx := (l.keyIndex key).toNat
    if idx < l.entries.length ∧ cmp (l.entries.getD idx (0, 0)).1 key = 0 then
      { l with entries := l.entries.eraseIdx idx }
    else l

/-- `BPlusTreeInternalPage::Lookup` (b_plus_tree_internal_page.cpp
lines 81-99): binary search from index 1, then the source's two
fallback returns; on loop exhaustion the loop variables satisfy
`high = low - 1`. -/
def lookupGo (arr : List (Int × Int)) (key : Int) (low high : Int) : Int :=
  if h : low ≤ high then
    let mid := low + (high - low) / 2
    let c := cmp (arr.getD mid.toNat (0, -1)).1 key
    if c = 0 then (arr.getD mid.toNat (0, -1)).2
    else if c = -1 then lookupGo arr key (mid + 1) high
    else lookupGo arr key low (mid - 1)
  else
    if 1 ≤ low ∧ low < (arr.length : Int) ∧ cmp (arr.getD low.toNat (0, -1)).1 key < 0 then
      (arr.getD low.toNat (0, -1)).2
    else (arr.getD high.toNat (0, -1)).2
termination_by (high + 1 - low).toNat
decreasing_by
  · have h0 : 0 ≤ (high - low) / 2 := Int.ediv_nonneg (by omega) (by norm_num)
    omega
  · have h1 : (high - low) / 2 ≤ high - low := Int.ediv_le_self _ (by omega)
    omega

def InternalPage.lookup (nd : InternalPage) (key : Int) : Int :=
  lookupGo nd.entries key 1 ((nd.entries.length : Int) - 1)

/-- `BPlusTreeInternalPage::ValueIndex` (lines 55-60): linear scan,
-1 when absent. -/
def valueIndexGo (arr : List (Int × Int)) (v : Int) (i : Int) : Int :=
  match arr with
  | [] => -1
  | e :: rest => if e.2 = v then i else valueIndexGo rest v (i + 1)

def InternalPage.valueIndex (nd : InternalPage) (v : Int) : Int :=
  valueIndexGo nd.entries v 0

def InternalPage.valueAt (nd : InternalPage) (i : Int) : Int :=
  (nd.entries.getD i.toNat (0, -1)).2

def InternalPage.keyAt (nd : InternalPage) (i : Int) : Int :=
  (nd.entries.getD i.toNat (0, -1)).1

def InternalPage.setKeyAt (nd : InternalPage) (i : Int) (k : Int) : InternalPage :=
  { nd with entries := nd.entries.set i.toNat (k, (nd.entries.getD i.toNat (0, -1)).2) }

/-- `BPlusTreeInternalPage::InsertNodeAfter` (lines 125-137). -/
def InternalPage.insertNodeAfter (nd : InternalPage) (oldV : Int) (k : Int) (newV : Int) :
    InternalPage :=
  let idx := nd.valueIndex oldV + 1
  { nd with entries := nd.entries.insertIdx idx.toNat (k, newV) }

/-- `BPlusTreeInternalPage::Remove` (lines 203-214): close the gap at
the index (the last-index special case is the same erasure). -/
def InternalPage.removeAt (nd : InternalPage) (i : Int) : InternalPage :=
  { nd with entries := nd.entries.eraseIdx i.toNat }

/-- A `BPlusTree` instance: the buffer pool's pages as an arena keyed
by page id, the root page id (`INVALID_PAGE_ID = -1` when empty), a
fresh-page-id allocator standing for `BufferPoolManager::NewPage`, and
the two `Init`-computed max sizes (even, from `PAGE_SIZE`). -/
structure Tree where
  pages : Int → Option BPage
  root : Int
  nextId : Int
  leafMax : Nat
  innerMax : Nat

def Tree.setPage (t : Tree) (pid : Int) (p : BPage) : Tree :=
  { t with pages := fun q => if q = pid then some p else t.pages q }

/-- `BufferPoolManager::DeletePage`. -/
def Tree.delPage (t : Tree) (pid : Int) : Tree :=
  { t with pages := fun q => if q = pid then none else t.pages q }

/-- `SetParentPageId` on the page behind `pid`. -/
def Tree.setParentOf (t : Tree) (pid : Int) (par : Int) : Tree :=
  match t.pages pid with
  | some p => t.setPage pid (p.setParent par)
  | none => t

/-- Fetched page, with a dummy for the impossible missing case (the
source would fault). -/
def Tree.pageD (t : Tree) (pid : Int) : BPage :=
  (t.pages pid).getD (.leaf { parent := -1, maxSize := 0, entries := [], next := -1 })

@[simp]
theorem pages_setPage_self (t : Tree) (pid : Int) (p : BPage) :
    (t.setPage pid p).pages pid = some p := by
  simp [Tree.setPage]

@[simp]
theorem pages_setPage_ne (t : Tree) (pid : Int) (p : BPage) (q : Int) (h : q ≠ pid) :
    (t.setPage pid p).pages q = t.pages q := by
  simp [Tree.setPage, h]

@[simp]
theorem pageD_setPage_self (t : Tree) (pid : Int) (p : BPage) :
    (t.setPage pid p).pageD pid = p := by
  simp [Tree.pageD]

@[simp]
theorem pageD_setPage_ne (t : Tree) (pid : Int) (p : BPage) (q : Int) (h : q ≠ pid) :
    (t.setPage pid p).pageD q = t.pageD q := by
  simp [Tree.pageD, h]

/-- `GetLeafPage`'s descent loop (b_plus_tree.cpp lines 534-558):
follow `InternalPage::Lookup` until a leaf page, with explicit fuel. -/
def descend (t : Tree) (key : Int) : Nat → Int → Option Int
  | 0, _ => none
  | fuel + 1, pid =>
    match t.pages pid with
    | some (.leaf _) => some pid
    | some (.inner nd) => descend t key fuel (nd.lookup key)
    | none => none

/-- The parent-pointer reparenting loop of the internal `MoveHalfTo`
(b_plus_tree_internal_page.cpp lines 163-170). -/
def reparentAll (t : Tree) (kids : List Int) (par : Int) : Tree :=
  kids.foldl (fun acc c => acc.setParentOf c par) t

/-- `BPlusTree::InsertIntoParent` (b_plus_tree.cpp lines 199-251), with
fuel bounding the parent-chain recursion. -/
def insertIntoParent (t : Tree) (oldId : Int) (key : Int) (newId : Int) : Nat → Tree
  | 0 => t
  | fuel + 1 =>
    let parentId := (t.pageD oldId).parent
    if parentId = -1 then
      -- split of the root: PopulateNewRoot (internal page lines 111-118)
      let rootId := t.nextId
      let newRoot : InternalPage :=
        { parent := -1, maxSize := t.innerMax, entries := [(0, oldId), (key, newId)] }
      let t1 := t.setParentOf oldId rootId
      let t2 := t1.setParentOf newId rootId
      let t3 := t2.setPage rootId (.inner newRoot)
      { t3 with root := rootId, nextId := t.nextId + 1 }
    else
      match t.pages parentId with
      | some (.inner p) =>
        let p1 := p.insertNodeAfter oldId key newId
        let t1 := t.setPage parentId (.inner p1)
        if p1.entries.length = p1.maxSize then
          -- internal split: Split + MoveHalfTo (lines 146-172)
          let newPid := t1.nextId
          let start := p1.entries.length / 2
          let keep := p1.entries.take start
          let moved := p1.entries.drop start
          let other : InternalPage := { parent := p1.parent, maxSize := t.innerMax, entries := moved }
          let t2 := t1.setPage parentId (.inner { p1 with entries := keep })
          let t3 := t2.setPage newPid (.inner other)
          let t4 := { t3 with nextId := t1.nextId + 1 }
          let t5 := reparentAll t4 (moved.map Prod.snd) newPid
          insertIntoParent t5 parentId ((moved.getD 0 (0, -1)).1) newPid fuel
        else t1
      | _ => t

/-- `BPlusTree::InsertIntoLeaf` (b_plus_tree.cpp lines 110-163): find
the leaf, reject a present key, otherwise insert; split when the
insertion fills the leaf to `max`, link the new leaf into the chain and
push its first key to the parent. -/
def insertIntoLeaf (t : Tree) (key : Int) (value : Nat) (fuel : Nat) : Tree × Bool :=
  match descend t key fuel t.root with
  | none => (t, false)
  | some lid =>
    match t.pages lid with
    | some (.leaf l) =>
      match l.lookup key with
      | some _ => (t, false)
      | none =>
        if l.entries.length + 1 < l.maxSize then
          (t.setPage lid (.leaf (l.insert key value)), true)
        else
          let l1 := l.insert key value
          let newId := t.nextId
          let start := l1.entries.length / 2
          let keep := l1.entries.take start
          let moved := l1.entries.drop start
          let other : LeafPage :=
            { parent := l1.parent, maxSize := t.leafMax, entries := moved, next := l1.next }
          let t1 := t.setPage lid (.leaf { l1 with entries := keep, next := newId })
          let t2 := t1.setPage newId (.leaf other)
          let t3 := { t2 with nextId := t.nextId + 1 }
          let t4 := insertIntoParent t3 lid ((moved.getD 0 (0, 0)).1) newId fuel
          (t4, true)
    | _ => (t, false)

/-- `BPlusTree::StartNewTree` (lines 85-100). -/
def startNewTree (t : Tree) (key : Int) (value : Nat) (fuel : Nat) : Tree × Bool :=
  let rootId := t.nextId
  let l : LeafPage := { parent := -1, maxSize := t.leafMax, entries := [], next := -1 }
  let t1 := t.setPage rootId (.leaf l)
  let t2 := { t1 with root := rootId, nextId := t.nextId + 1 }
  insertIntoLeaf t2 key value fuel

/-- `BPlusTree::Insert` (lines 67-78). -/
def insert (t : Tree) (key : Int) (value : Nat) (fuel : Nat) : Tree × Bool :=
  if t.root = -1 then startNewTree t key value fuel
  else insertIntoLeaf t key value fuel

/-- `BPlusTree::GetValue` (lines 41-55). -/
def getValue (t : Tree) (key : Int) (fuel : Nat) : Option Nat :=
  if t.root = -1 then none
  else
    match descend t key fuel t.root with
    | none => none
    | some lid =>
      match t.pages lid with
      | some (.leaf l) => l.lookup key
      | _ => none

/-- The leaf `MoveFirstToEndOf` (b_plus_tree_leaf_page.cpp lines
234-263): append `this`'s first pair to the recipient (its left
sibling), shift, and update the parent separator at `this`'s index to
`this`'s new first key. -/
def leafMoveFirstToEndOf (t : Tree) (thisId recipId : Int) : Tree :=
  match t.pages thisId, t.pages recipId with
  | some (.leaf l), some (.leaf r) =>
    match t.pages l.parent with
    | some (.inner p) =>
      let idxInParent := p.valueIndex thisId
      let r1 := { r with entries := r.entries ++ [l.entries.getD 0 (0, 0)] }
      let l1 := { l with entries := l.entries.tail }
      let p1 := p.setKeyAt idxInParent (l1.entries.getD 0 (0, 0)).1
      ((t.setPage recipId (.leaf r1)).setPage thisId (.leaf l1)).setPage l.parent (.inner p1)
    | _ => t
  | _, _ => t

/-- The leaf `MoveLastToFrontOf` (lines 273-304): move `this`'s last
pair to the front of the recipient (its right sibling); the source then
writes `this->array[0].first` — the LEFT sibling's first key — into the
parent separator at the recipient's index. -/
def leafMoveLastToFrontOf (t : Tree) (thisId recipId : Int) : Tree :=
  match t.pages thisId, t.pages recipId with
  | some (.leaf l), some (.leaf r) =>
    match t.pages l.parent with
    | some (.inner p) =>
      let idxInParent := p.valueIndex recipId
      let last := l.entries.getD (l.entries.length - 1) (0, 0)
      let r1 := { r with entries := last :: r.entries }
      let l1 := { l with entries := l.entries.take (l.entries.length - 1) }
      let p1 := p.setKeyAt idxInParent (l.entries.getD 0 (0, 0)).1
      ((t.setPage recipId (.leaf r1)).setPage thisId (.leaf l1)).setPage l.parent (.inner p1)
    | _ => t
  | _, _ => t

/-- The internal `MoveFirstToEndOf` (b_plus_tree_internal_page.cpp
lines 257-284): the separator at `this`'s parent index comes down as
the key of the transferred first child; the parent separator becomes
`this`'s new key 0. -/
def innerMoveFirstToEndOf (t : Tree) (thisId recipId : Int) : Tree :=
  match t.pages thisId, t.pages recipId with
  | some (.inner nd), some (.inner r) =>
    match t.pages nd.parent with
    | some (.inner p) =>
      let idxInParent := p.valueIndex thisId
      let key := p.keyAt idxInParent
      let r1 := { r with entries := r.entries ++ [(key, (nd.entries.getD 0 (0, -1)).2)] }
      let nd1 := nd.removeAt 0
      let p1 := p.setKeyAt idxInParent (nd1.keyAt 0)
      ((t.setPage recipId (.inner r1)).setPage thisId (.inner nd1)).setPage nd.parent (.inner p1)
    | _ => t
  | _, _ => t

/-- The internal `MoveLastToFrontOf` (lines 294-324): shift the
recipient's array right by one, write the parent separator (read at
`this`'s — the donor's — parent index) as the key of slot 1 and
`this`'s last child into slot 0's value, promote `this`'s last key to
the parent, and drop `this`'s last entry.  The source never calls
`recipient->IncreaseSize(1)` (contrast `MoveFirstToEndOf`, line 278),
so the recipient's visible size is unchanged and its shifted-out last
entry — now one slot past the size — is lost; the model keeps the
first `size` slots. -/
def innerMoveLastToFrontOf (t : Tree) (thisId recipId : Int) : Tree :=
  match t.pages thisId, t.pages recipId with
  | some (.inner nd), some (.inner r) =>
    match t.pages nd.parent with
    | some (.inner p) =>
      let idxInParent := p.valueIndex thisId
      let parentKey := p.keyAt idxInParent
      let lastIdx := (nd.entries.length : Int) - 1
      let lastVal := (nd.entries.getD lastIdx.toNat (0, -1)).2
      let lastKey := (nd.entries.getD lastIdx.toNat (0, -1)).1
      let r1 : InternalPage :=
        { r with entries :=
            match r.entries with
            | [] => []
            | e0 :: rest => ((e0.1, lastVal) :: (parentKey, e0.2) :: rest).dropLast }
      let p1 := p.setKeyAt idxInParent lastKey
      let nd1 := nd.removeAt lastIdx
      ((t.setPage recipId (.inner r1)).setPage thisId (.inner nd1)).setPage nd.parent (.inner p1)
    | _ => t
  | _, _ => t

/-- `BPlusTree::Redistribute` (b_plus_tree.cpp lines 479-490):
`index = 0` rotates the right sibling's first pair to the node's end,
`index = 1` rotates the left sibling's last pair to the node's front. -/
def redistribute (t : Tree) (neighborId nodeId : Int) (index : Nat) : Tree :=
  if index = 0 then
    match t.pages neighborId with
    | some (.leaf _) => leafMoveFirstToEndOf t neighborId nodeId
    | some (.inner _) => innerMoveFirstToEndOf t neighborId nodeId
    | none => t
  else
    match t.pages neighborId with
    | some (.leaf _) => leafMoveLastToFrontOf t neighborId nodeId
    | some (.inner _) => innerMoveLastToFrontOf t neighborId nodeId
    | none => t

/-- The leaf `MoveAllTo` (b_plus_tree_leaf_page.cpp lines 211-221):
append all pairs to the recipient and pass on the `next` link. -/
def leafMoveAllTo (t : Tree) (thisId recipId : Int) : Tree :=
  match t.pages thisId, t.pages recipId with
  | some (.leaf l), some (.leaf r) =>
    (t.setPage recipId (.leaf { r with entries := r.entries ++ l.entries, next := l.next }))
  | _, _ => t

/-- The internal `MoveAllTo` (b_plus_tree_internal_page.cpp lines
233-244): append all pairs to the recipient (the source neither pulls
the parent separator down nor reparents the moved children). -/
def innerMoveAllTo (t : Tree) (thisId recipId : Int) : Tree :=
  match t.pages thisId, t.pages recipId with
  | some (.inner nd), some (.inner r) =>
    (t.setPage recipId (.inner { r with entries := r.entries ++ nd.entries }))
  | _, _ => t

def moveAllTo (t : Tree) (thisId recipId : Int) : Tree :=
  match t.pages thisId with
  | some (.leaf _) => leafMoveAllTo t thisId recipId
  | some (.inner _) => innerMoveAllTo t thisId recipId
  | none => t

/-- `BPlusTree::Coalesce` (b_plus_tree.cpp lines 438-468): `index = 1`
merges the node into its left sibling and removes the node's entry from
the parent; `index = 0` merges the right sibling into the node and
removes the right sibling's entry. -/
def coalesce (t : Tree) (neighborId nodeId parentId : Int) (index : Nat) : Tree :=
  match t.pages parentId with
  | some (.inner p) =>
    if index = 1 then
      let t1 := moveAllTo t nodeId neighborId
      let idx := p.valueIndex nodeId
      t1.setPage parentId (.inner (p.removeAt idx))
    else
      let t1 := moveAllTo t neighborId nodeId
      let idx := p.valueIndex neighborId
      t1.setPage parentId (.inner (p.removeAt idx))
  | _ => t

/-- `BPlusTree::AdjustRoot` (lines 501-531). -/
def adjustRoot (t : Tree) (rootId : Int) : Tree × Bool :=
  match t.pages rootId with
  | some (.leaf l) => if l.entries.length = 0 then (t, true) else (t, false)
  | some (.inner nd) =>
    if nd.entries.length = 1 then
      let childId := nd.valueAt 0
      let t1 := t.setParentOf childId (-1)
      ({ t1 with root := childId }, true)
    else (t, false)
  | none => (t, false)

/-- `BPlusTree::CoalesceOrRedistribute` (b_plus_tree.cpp lines
321-424), fuel bounding the parent-chain recursion.  Returns the new
state and `node_delete`. -/
def coalesceOrRedistribute (t : Tree) (nodeId : Int) : Nat → Tree × Bool
  | 0 => (t, false)
  | fuel + 1 =>
    match t.pages nodeId with
    | none => (t, false)
    | some node =>
      if node.size ≥ node.minSize then (t, false)
      else if node.parent = -1 then adjustRoot t nodeId
      else
        match t.pages node.parent with
        | some (.inner parent) =>
          let parentId := node.parent
          let idx := parent.valueIndex nodeId
          -- redistribute takes precedence: left sibling first
          if 0 ≤ idx - 1 ∧
              (t.pageD (parent.valueAt (idx - 1))).size >
                (t.pageD (parent.valueAt (idx - 1))).minSize then
            (redistribute t (parent.valueAt (idx - 1)) nodeId 1, false)
          else if idx + 1 < (parent.entries.length : Int) ∧
              (t.pageD (parent.valueAt (idx + 1))).size > node.minSize then
            (redistribute t (parent.valueAt (idx + 1)) nodeId 0, false)
          else
            -- now try merging, left sibling first
            let mergeLeft : Bool :=
              decide (0 ≤ idx - 1 ∧
                (t.pageD (parent.valueAt (idx - 1))).size + node.size < node.maxSize)
            let t1 :=
              if mergeLeft then coalesce t (parent.valueAt (idx - 1)) nodeId parentId 1
              else t
            let t2 :=
              if ¬mergeLeft ∧ idx + 1 < (parent.entries.length : Int) ∧
                  (t.pageD (parent.valueAt (idx + 1))).size + node.size < node.maxSize then
                (coalesce t1 (parent.valueAt (idx + 1)) nodeId parentId 0).delPage
                  (parent.valueAt (idx + 1))
              else t1
            let pr := coalesceOrRedistribute t2 parentId fuel
            let t3 := if pr.2 then pr.1.delPage parentId else pr.1
            (t3, mergeLeft)
        | _ => (t, false)

/-- `BPlusTree::Remove` (lines 263-312). -/
def remove (t : Tree) (key : Int) (fuel : Nat) : Tree :=
  if t.root = -1 then t
  else
    match descend t key fuel t.root with
    | none => t
    | some lid =>
      match t.pages lid with
      | some (.leaf l) =>
        match l.lookup key with
        | none => t
        | some _ =>
          let sizeAfter := l.entries.length - 1
          let l1 := l.removeAndDeleteRecord key
          let t1 := t.setPage lid (.leaf l1)
          if sizeAfter > (BPage.leaf l).minSize then t1
          else
            let pr := coalesceOrRedistribute t1 lid fuel
            if pr.2 then
              let t3 := pr.1.delPage lid
              if lid = pr.1.root then { t3 with root := -1 } else t3
            else pr.1
      | _ => t

end BPT

namespace BPTThm
open BPT

/-- C4. For a non-root node that underflowed (`size < min`), the
fix-up considers the remedies in exactly the source's order and applies
the first one whose guard holds: (1) left-sibling redistribution when
`left.size > left.min`; (2) right-sibling redistribution when
`right.size > node.min`; (3) merge into the left sibling when
`left.size + size < max`; (4) merge with the right sibling when
`right.size + size < max` (the right sibling's page is then freed).
Merging recurses on the parent (which may underflow in turn, up to the
root) after removing a separator from it — the parent's entry count
drops by one — while leaf redistribution rewrites the parent separator
at the node's index and leaves the parent's size unchanged. -/
theorem c4_underflow_fixup_order (t : Tree) (nodeId : Int) (node : BPage)
    (parent : InternalPage) (fuel : Nat)
    (hnode : t.pages nodeId = some node)
    (hsize : node.size < node.minSize)
    (hpid : node.parent ≠ -1)
    (hparent : t.pages node.parent = some (.inner parent)) :
    ((0 ≤ parent.valueIndex nodeId - 1 ∧
        (t.pageD (parent.valueAt (parent.valueIndex nodeId - 1))).size >
          (t.pageD (parent.valueAt (parent.valueIndex nodeId - 1))).minSize) →
      coalesceOrRedistribute t nodeId (fuel + 1) =
        (redistribute t (parent.valueAt (parent.valueIndex nodeId - 1)) nodeId 1, false)) ∧
    (¬(0 ≤ parent.valueIndex nodeId - 1 ∧
        (t.pageD (parent.valueAt (parent.valueIndex nodeId - 1))).size >
          (t.pageD (parent.valueAt (parent.valueIndex nodeId - 1))).minSize) →
      (parent.valueIndex nodeId + 1 < (parent.entries.length : Int) ∧
        (t.pageD (parent.valueAt (parent.valueIndex nodeId + 1))).size > node.minSize) →
      coalesceOrRedistribute t nodeId (fuel + 1) =
        (redistribute t (parent.valueAt (parent.valueIndex nodeId + 1)) nodeId 0, false)) ∧
    (¬(0 ≤ parent.valueIndex nodeId - 1 ∧
        (t.pageD (parent.valueAt (parent.valueIndex nodeId - 1))).size >
          (t.pageD (parent.valueAt (parent.valueIndex nodeId - 1))).minSize) →
      ¬(parent.valueIndex nodeId + 1 < (parent.entries.length : Int) ∧
        (t.pageD (parent.valueAt (parent.valueIndex nodeId + 1))).size > node.minSize) →
      (0 ≤ parent.valueIndex nodeId - 1 ∧
        (t.pageD (parent.valueAt (parent.valueIndex nodeId - 1))).size + node.size <
          node.maxSize) →
      coalesceOrRedistribute t nodeId (fuel + 1) =
        (let pr := coalesceOrRedistribute
            (coalesce t (parent.valueAt (parent.valueIndex nodeId - 1)) nodeId node.parent 1)
            node.parent fuel
         ((if pr.2 then pr.1.delPage node.parent else pr.1), true))) ∧
    (¬(0 ≤ parent.valueIndex nodeId - 1 ∧
        (t.pageD (parent.valueAt (parent.valueIndex nodeId - 1))).size >
          (t.pageD (parent.valueAt (parent.valueIndex nodeId - 1))).minSize) →
      ¬(parent.valueIndex nodeId + 1 < (parent.entries.length : Int) ∧
        (t.pageD (parent.valueAt (parent.valueIndex nodeId + 1))).size > node.minSize) →
      ¬(0 ≤ parent.valueIndex nodeId - 1 ∧
        (t.pageD (parent.valueAt (parent.valueIndex nodeId - 1))).size + node.size <
          node.maxSize) →
      (parent.valueIndex nodeId + 1 < (parent.entries.length : Int) ∧
        (t.pageD (parent.valueAt (parent.valueIndex nodeId + 1))).size + node.size <
          node.maxSize) →
      coalesceOrRedistribute t nodeId (fuel + 1) =
        (let pr := coalesceOrRedistribute
            ((coalesce t (parent.valueAt (parent.valueIndex nodeId + 1)) nodeId node.parent 0).delPage
              (parent.valueAt (parent.valueIndex nodeId + 1)))
            node.parent fuel
         ((if pr.2 then pr.1.delPage node.parent else pr.1), false))) ∧
    (∀ neighborId, (parent.valueIndex nodeId).toNat < parent.entries.length →
      ((coalesce t neighborId nodeId node.parent 1).pageD node.parent).size =
        parent.entries.length - 1) ∧
    (∀ lp np,
      t.pages (parent.valueAt (parent.valueIndex nodeId - 1)) = some (.leaf lp) →
      t.pages nodeId = some (.leaf np) →
      lp.parent = node.parent →
      nodeId ≠ parent.valueAt (parent.valueIndex nodeId - 1) →
      nodeId ≠ node.parent →
      parent.valueAt (parent.valueIndex nodeId - 1) ≠ node.parent →
      ((redistribute t (parent.valueAt (parent.valueIndex nodeId - 1)) nodeId 1).pageD
          nodeId).size = np.entries.length + 1 ∧
      ((redistribute t (parent.valueAt (parent.valueIndex nodeId - 1)) nodeId 1).pageD
          (parent.valueAt (parent.valueIndex nodeId - 1))).size = lp.entries.length - 1 ∧
      (redistribute t (parent.valueAt (parent.valueIndex nodeId - 1)) nodeId 1).pageD
          node.parent =
        .inner (parent.setKeyAt (parent.valueIndex nodeId) (lp.entries.getD 0 (0, 0)).1)) := by
  have hlt : ¬ node.size ≥ node.minSize := by omega
  refine ⟨?_, ?_, ?_, ?_, ?_, ?_⟩
  · intro hg1
    simp [coalesceOrRedistribute, hnode, hparent, hpid, hlt, hg1]
  · intro hg1 hg2
    simp [coalesceOrRedistribute, hnode, hparent, hpid, hlt, hg1, hg2]
    intro h1 h2
    exact absurd ⟨by omega, h2⟩ hg1
  · intro hg1 hg2 hg3
    have hL : ¬((t.pageD (parent.valueAt (parent.valueIndex nodeId - 1))).minSize <
        (t.pageD (parent.valueAt (parent.valueIndex nodeId - 1))).size) :=
      fun h => hg1 ⟨hg3.1, h⟩
    simp [coalesceOrRedistribute, hnode, hparent, hpid, hlt, hg1, hg2, hg3, hL,
      Nat.le_of_not_lt hL]
  · intro hg1 hg2 hg3 hg4
    have hg1' : ¬(1 ≤ parent.valueIndex nodeId ∧
        (t.pageD (parent.valueAt (parent.valueIndex nodeId - 1))).minSize <
          (t.pageD (parent.valueAt (parent.valueIndex nodeId - 1))).size) :=
      fun h => hg1 ⟨by omega, h.2⟩
    have hg2' : ¬(node.minSize <
        (t.pageD (parent.valueAt (parent.valueIndex nodeId + 1))).size) :=
      fun h => hg2 ⟨hg4.1, h⟩
    have hg3' : ¬(1 ≤ parent.valueIndex nodeId ∧
        (t.pageD (parent.valueAt (parent.valueIndex nodeId - 1))).size + node.size <
          node.maxSize) :=
      fun h => hg3 ⟨by omega, h.2⟩
    have hg3i : 1 ≤ parent.valueIndex nodeId →
        node.maxSize ≤ (t.pageD (parent.valueAt (parent.valueIndex nodeId - 1))).size +
          node.size :=
      fun h1 => Nat.le_of_not_lt (fun h2 => hg3 ⟨by omega, h2⟩)
    simp [coalesceOrRedistribute, hnode, hparent, hpid, hlt, hg1', hg2', hg3', hg3i, hg4]
  · intro neighborId hidx
    simp [coalesce, hparent, Tree.pageD, Tree.setPage, InternalPage.removeAt,
      BPage.size, List.length_eraseIdx, hidx]
  · intro lp np hlp hnp hpare hne1 hne2 hne3
    have hne2' : nodeId ≠ lp.parent := by rw [hpare]; exact hne2
    have hne3' : lp.parent ≠ parent.valueAt (parent.valueIndex nodeId - 1) := by
      rw [hpare]; exact fun h => hne3 h.symm
    refine ⟨?_, ?_, ?_⟩
    · simp [redistribute, hlp, leafMoveLastToFrontOf, hnp, hpare, hparent,
        Tree.pageD, Tree.setPage, BPage.size, hne1, hne2, hne3, hne2', hne3']
    · simp [redistribute, hlp, leafMoveLastToFrontOf, hnp, hpare, hparent,
        Tree.pageD, Tree.setPage, BPage.size, hne1, hne2, hne3, hne2', hne3',
        List.length_take]
    · simp [redistribute, hlp, leafMoveLastToFrontOf, hnp, hpare, hparent,
        Tree.pageD, Tree.setPage, BPage.size, hne1, hne2, hne3, hne2', hne3']

/-- Concrete tree for the C4 witness: root internal page 1 over leaf 20
(three entries) and leaf 10 (one entry, underflowing at max size 4). -/
def c4T : Tree :=
  { pages := fun pid =>
      if pid = 1 then some (.inner { parent := -1, maxSize := 4, entries := [(0, 20), (5, 10)] })
      else if pid = 10 then some (.leaf { parent := 1, maxSize := 4, entries := [(5, 5)], next := -1 })
      else if pid = 20 then
        some (.leaf { parent := 1, maxSize := 4, entries := [(1, 1), (2, 2), (3, 3)], next := 10 })
      else none
    root := 1, nextId := 21, leafMax := 4, innerMax := 4 }

def c4Node : BPage := .leaf { parent := 1, maxSize := 4, entries := [(5, 5)], next := -1 }

def c4Parent : InternalPage := { parent := -1, maxSize := 4, entries := [(0, 20), (5, 10)] }

/-- Witness for C4 at the concrete configuration `c4T` (node = page 10,
its left sibling page 20 can give up an entry). -/
theorem c4_underflow_fixup_order_witness :
    (c4T.pages 10 = some c4Node ∧
      c4Node.size < c4Node.minSize ∧
      c4Node.parent ≠ -1 ∧
      c4T.pages c4Node.parent = some (.inner c4Parent)) ∧
    (((0 ≤ c4Parent.valueIndex 10 - 1 ∧
        (c4T.pageD (c4Parent.valueAt (c4Parent.valueIndex 10 - 1))).size >
          (c4T.pageD (c4Parent.valueAt (c4Parent.valueIndex 10 - 1))).minSize) →
      coalesceOrRedistribute c4T 10 (40 + 1) =
        (redistribute c4T (c4Parent.valueAt (c4Parent.valueIndex 10 - 1)) 10 1, false)) ∧
    (¬(0 ≤ c4Parent.valueIndex 10 - 1 ∧
        (c4T.pageD (c4Parent.valueAt (c4Parent.valueIndex 10 - 1))).size >
          (c4T.pageD (c4Parent.valueAt (c4Parent.valueIndex 10 - 1))).minSize) →
      (c4Parent.valueIndex 10 + 1 < (c4Parent.entries.length : Int) ∧
        (c4T.pageD (c4Parent.valueAt (c4Parent.valueIndex 10 + 1))).size > c4Node.minSize) →
      coalesceOrRedistribute c4T 10 (40 + 1) =
        (redistribute c4T (c4Parent.valueAt (c4Parent.valueIndex 10 + 1)) 10 0, false)) ∧
    (¬(0 ≤ c4Parent.valueIndex 10 - 1 ∧
        (c4T.pageD (c4Parent.valueAt (c4Parent.valueIndex 10 - 1))).size >
          (c4T.pageD (c4Parent.valueAt (c4Parent.valueIndex 10 - 1))).minSize) →
      ¬(c4Parent.valueIndex 10 + 1 < (c4Parent.entries.length : Int) ∧
        (c4T.pageD (c4Parent.valueAt (c4Parent.valueIndex 10 + 1))).size > c4Node.minSize) →
      (0 ≤ c4Parent.valueIndex 10 - 1 ∧
        (c4T.pageD (c4Parent.valueAt (c4Parent.valueIndex 10 - 1))).size + c4Node.size <
          c4Node.maxSize) →
      coalesceOrRedistribute c4T 10 (40 + 1) =
        (let pr := coalesceOrRedistribute
            (coalesce c4T (c4Parent.valueAt (c4Parent.valueIndex 10 - 1)) 10 c4Node.parent 1)
            c4Node.parent 40
         ((if pr.2 then pr.1.delPage c4Node.parent else pr.1), true))) ∧
    (¬(0 ≤ c4Parent.valueIndex 10 - 1 ∧
        (c4T.pageD (c4Parent.valueAt (c4Parent.valueIndex 10 - 1))).size >
          (c4T.pageD (c4Parent.valueAt (c4Parent.valueIndex 10 - 1))).minSize) →
      ¬(c4Parent.valueIndex 10 + 1 < (c4Parent.entries.length : Int) ∧
        (c4T.pageD (c4Parent.valueAt (c4Parent.valueIndex 10 + 1))).size > c4Node.minSize) →
      ¬(0 ≤ c4Parent.valueIndex 10 - 1 ∧
        (c4T.pageD (c4Parent.valueAt (c4Parent.valueIndex 10 - 1))).size + c4Node.size <
          c4Node.maxSize) →
      (c4Parent.valueIndex 10 + 1 < (c4Parent.entries.length : Int) ∧
        (c4T.pageD (c4Parent.valueAt (c4Parent.valueIndex 10 + 1))).size + c4Node.size <
          c4Node.maxSize) →
      coalesceOrRedistribute c4T 10 (40 + 1) =
        (let pr := coalesceOrRedistribute
            ((coalesce c4T (c4Parent.valueAt (c4Parent.valueIndex 10 + 1)) 10 c4Node.parent 0).delPage
              (c4Parent.valueAt (c4Parent.valueIndex 10 + 1)))
            c4Node.parent 40
         ((if pr.2 then pr.1.delPage c4Node.parent else pr.1), false))) ∧
    (∀ neighborId, (c4Parent.valueIndex 10).toNat < c4Parent.entries.length →
      ((coalesce c4T neighborId 10 c4Node.parent 1).pageD c4Node.parent).size =
        c4Parent.entries.length - 1) ∧
    (∀ lp np,
      c4T.pages (c4Parent.valueAt (c4Parent.valueIndex 10 - 1)) = some (.leaf lp) →
      c4T.pages 10 = some (.leaf np) →
      lp.parent = c4Node.parent →
      (10 : Int) ≠ c4Parent.valueAt (c4Parent.valueIndex 10 - 1) →
      (10 : Int) ≠ c4Node.parent →
      c4Parent.valueAt (c4Parent.valueIndex 10 - 1) ≠ c4Node.parent →
      ((redistribute c4T (c4Parent.valueAt (c4Parent.valueIndex 10 - 1)) 10 1).pageD
          10).size = np.entries.length + 1 ∧
      ((redistribute c4T (c4Parent.valueAt (c4Parent.valueIndex 10 - 1)) 10 1).pageD
          (c4Parent.valueAt (c4Parent.valueIndex 10 - 1))).size = lp.entries.length - 1 ∧
      (redistribute c4T (c4Parent.valueAt (c4Parent.valueIndex 10 - 1)) 10 1).pageD
          c4Node.parent =
        .inner (c4Parent.setKeyAt (c4Parent.valueIndex 10) (lp.entries.getD 0 (0, 0)).1))) :=
  ⟨⟨by decide, by decide, by decide, by decide⟩,
    c4_underflow_fixup_order c4T 10 c4Node c4Parent 40
      (by decide) (by decide) (by decide) (by decide)⟩

namespace C3
open BPT

/-- The canonical insertion point: number of keys below the probe. -/
def lowerIdx (ks : List Int) (key : Int) : Nat :=
  ks.countP (fun k => k < key)

theorem cmp_self (a : Int) : BPT.cmp a a = 0 := by simp [BPT.cmp]

theorem cmp_eq_neg_one (a b : Int) (h : a < b) : BPT.cmp a b = -1 := by
  simp [BPT.cmp, h]

theorem cmp_eq_one (a b : Int) (h : b < a) : BPT.cmp a b = 1 := by
  have h1 : ¬ a < b := by omega
  have h2 : ¬ a = b := by omega
  simp [BPT.cmp, h1, h2]

theorem eq_of_cmp_eq_zero {a b : Int} (h : BPT.cmp a b = 0) : a = b := by
  by_contra hne
  rcases lt_trichotomy a b with h1 | h1 | h1
  · rw [cmp_eq_neg_one a b h1] at h
    exact absurd h (by norm_num)
  · exact hne h1
  · rw [cmp_eq_one a b h1] at h
    exact absurd h (by norm_num)

theorem countP_eq_of_bound (p : Int → Bool) :
    ∀ (ks : List Int) (m : Nat), m ≤ ks.length →
      (∀ (i : Nat) (hi : i < ks.length), i < m → p ks[i] = true) →
      (∀ (i : Nat) (hi : i < ks.length), m ≤ i → p ks[i] = false) →
      ks.countP p = m := by
  intro ks
  induction ks with
  | nil =>
      intro m hm _ _
      simp only [List.length_nil, Nat.le_zero] at hm
      simp [hm]
  | cons k rest ih =>
      intro m hm h1 h2
      cases m with
      | zero =>
          have hk : p k = false := h2 0 (by simp) (Nat.le_refl 0)
          rw [List.countP_cons, hk]
          have hr : rest.countP p = 0 :=
            ih 0 (by omega) (fun i hi h => by omega)
              (fun i hi h => by
                have hx := h2 (i + 1) (by simpa using Nat.succ_lt_succ hi) (by omega)
                simpa using hx)
          simp [hr]
      | succ m' =>
          have hk : p k = true := h1 0 (by simp) (by omega)
          rw [List.countP_cons, hk]
          have hr : rest.countP p = m' :=
            ih m' (by simpa using hm)
              (fun i hi h => by
                have hx := h1 (i + 1) (by simpa using Nat.succ_lt_succ hi) (by omega)
                simpa using hx)
              (fun i hi h => by
                have hx := h2 (i + 1) (by simpa using Nat.succ_lt_succ hi) (by omega)
                simpa using hx)
          simp [hr]

theorem lowerIdx_le_length (ks : List Int) (key : Int) :
    lowerIdx ks key ≤ ks.length :=
  List.countP_le_length _

/-- Positional characterisation of the insertion point on a strictly
sorted key list. -/
theorem lt_lowerIdx_iff (ks : List Int) (key : Int) (hs : ks.Pairwise (· < ·)) :
    ∀ (i : Nat) (hi : i < ks.length), (ks[i] < key ↔ i < lowerIdx ks key) := by
  induction ks with
  | nil => intro i hi; simp at hi
  | cons k rest ih =>
      intro i hi
      have hks : ∀ a ∈ rest, k < a := (List.pairwise_cons.1 hs).1
      have hrest : rest.Pairwise (· < ·) := (List.pairwise_cons.1 hs).2
      have hconsP : k < key → lowerIdx (k :: rest) key = lowerIdx rest key + 1 := by
        intro h
        simp [lowerIdx, List.countP_cons, h]
      have hconsN : ¬ k < key → lowerIdx (k :: rest) key = 0 := by
        intro h
        have hz : rest.countP (fun a => a < key) = 0 := by
          rw [List.countP_eq_zero]
          intro a ha
          simp only [decide_eq_true_eq]
          have := hks a ha
          omega
        simp [lowerIdx, List.countP_cons, h, hz]
      cases i with
      | zero =>
          simp only [List.getElem_cons_zero]
          constructor
          · intro hk
            rw [hconsP hk]
            omega
          · intro hpos
            by_contra hk
            rw [hconsN hk] at hpos
            omega
      | succ i' =>
          simp only [List.getElem_cons_succ]
          have hi' : i' < rest.length := by simpa using hi
          by_cases hk : k < key
          · rw [hconsP hk, ih hrest i' hi']
            omega
          · rw [hconsN hk]
            constructor
            · intro hlt
              have := hks _ (List.getElem_mem hi')
              omega
            · omega

/-- One unfolding of the binary-search loop body. -/
theorem keyIndexGo_step (ks : List Int) (key : Int) (low high : Int) (h : low ≤ high) :
    keyIndexGo ks key low high =
      (if BPT.cmp (ks.getD (low + (high - low) / 2).toNat 0) key = 0 then
        low + (high - low) / 2
      else if BPT.cmp (ks.getD (low + (high - low) / 2).toNat 0) key = -1 then
        keyIndexGo ks key (low + (high - low) / 2 + 1) high
      else keyIndexGo ks key low (low + (high - low) / 2 - 1)) := by
  rw [keyIndexGo, dif_pos h]

/-- Exit value of the binary search: when `low > high`, the loop
returns `low`, which under the loop invariants is the insertion
point. -/
theorem keyIndexGo_exit (ks : List Int) (key : Int) (low high : Int)
    (h : ¬ low ≤ high) (hlow : 0 ≤ low) (hlen : low ≤ (ks.length : Int))
    (hinvL : ∀ (i : Nat) (hi : i < ks.length), (i : Int) < low → ks[i] < key)
    (hinvH : ∀ (i : Nat) (hi : i < ks.length), high < (i : Int) → ¬ ks[i] < key) :
    keyIndexGo ks key low high = (lowerIdx ks key : Int) := by
  rw [keyIndexGo, dif_neg h]
  have : lowerIdx ks key = low.toNat := by
    apply countP_eq_of_bound
    · omega
    · intro i hi hilt
      simp only [decide_eq_true_eq]
      exact hinvL i hi (by omega)
    · intro i hi hile
      simp only [decide_eq_false_iff_not]
      exact hinvH i hi (by omega)
  omega

/-- The `KeyIndex` binary search returns the insertion point on a
strictly sorted key array. -/
theorem keyIndexGo_eq_lowerIdx :
    ∀ (n : Nat) (ks : List Int) (key : Int) (low high : Int),
      (high + 1 - low).toNat ≤ n →
      ks.Pairwise (· < ·) →
      0 ≤ low → low ≤ (ks.length : Int) → high < (ks.length : Int) →
      (∀ (i : Nat) (hi : i < ks.length), (i : Int) < low → ks[i] < key) →
      (∀ (i : Nat) (hi : i < ks.length), high < (i : Int) → ¬ ks[i] < key) →
      keyIndexGo ks key low high = (lowerIdx ks key : Int) := by
  intro n
  induction n with
  | zero =>
      intro ks key low high hfuel hs hlow hlen hhigh hinvL hinvH
      exact keyIndexGo_exit ks key low high (by omega) hlow hlen hinvL hinvH
  | succ n ih =>
      intro ks key low high hfuel hs hlow hlen hhigh hinvL hinvH
      by_cases hlh : low ≤ high
      · rw [keyIndexGo_step ks key low high hlh]
        obtain ⟨mid, hm1, hm2, hmid⟩ :
            ∃ m : Int, low ≤ m ∧ m ≤ high ∧ low + (high - low) / 2 = m := by
          refine ⟨low + (high - low) / 2, ?_, ?_, rfl⟩
          · have hd0 : 0 ≤ (high - low) / 2 := Int.ediv_nonneg (by omega) (by norm_num)
            omega
          · have hd1 : (high - low) / 2 ≤ high - low := Int.ediv_le_self _ (by omega)
            omega
        rw [hmid]
        have hmlen : mid.toNat < ks.length := by omega
        have hmnat : (mid.toNat : Int) = mid := Int.toNat_of_nonneg (by omega)
        have hgd : ks.getD mid.toNat 0 = ks[mid.toNat] := List.getD_eq_getElem ks 0 hmlen
        rw [hgd]
        rcases lt_trichotomy (ks[mid.toNat]) key with hlt | heq | hgt
        · rw [if_neg (by rw [cmp_eq_neg_one _ _ hlt]; norm_num),
            if_pos (cmp_eq_neg_one _ _ hlt)]
          exact ih ks key (mid + 1) high (by omega) hs (by omega) (by omega) hhigh
            (fun i hi hilt => by
              rcases Nat.lt_or_ge i mid.toNat with hc2 | hc2
              · have := (List.pairwise_iff_getElem.1 hs) i mid.toNat hi hmlen hc2
                omega
              · have hieq : i = mid.toNat := by omega
                subst hieq
                exact hlt)
            hinvH
        · rw [if_pos (by rw [heq]; exact cmp_self key)]
          have hval : lowerIdx ks key = mid.toNat := by
            apply countP_eq_of_bound
            · omega
            · intro i hi hilt
              simp only [decide_eq_true_eq]
              have := (List.pairwise_iff_getElem.1 hs) i mid.toNat hi hmlen hilt
              omega
            · intro i hi hile
              simp only [decide_eq_false_iff_not]
              rcases Nat.eq_or_lt_of_le hile with hE | hL
              · subst hE
                omega
              · have := (List.pairwise_iff_getElem.1 hs) mid.toNat i hmlen hi hL
                omega
          omega
        · rw [if_neg (by rw [cmp_eq_one _ _ hgt]; norm_num),
            if_neg (by rw [cmp_eq_one _ _ hgt]; norm_num)]
          exact ih ks key low (mid - 1) (by omega) hs hlow hlen (by omega) hinvL
            (fun i hi hgt2 => by
              rcases Nat.lt_or_ge mid.toNat i with hc2 | hc2
              · have := (List.pairwise_iff_getElem.1 hs) mid.toNat i hmlen hi hc2
                omega
              · have hieq : i = mid.toNat := by omega
                subst hieq
                omega)
      · exact keyIndexGo_exit ks key low high hlh hlow hlen hinvL hinvH

theorem lowerIdx_cons_pos (k : Int) (ks : List Int) (key : Int) (h : k < key) :
    lowerIdx (k :: ks) key = lowerIdx ks key + 1 := by
  simp [lowerIdx, List.countP_cons, h]

theorem lowerIdx_cons_zero (k : Int) (ks : List Int) (key : Int) (h : ¬ k < key)
    (hks : ∀ a ∈ ks, k < a) : lowerIdx (k :: ks) key = 0 := by
  have hz : ks.countP (fun a => a < key) = 0 := by
    rw [List.countP_eq_zero]
    intro a ha
    simp only [decide_eq_true_eq]
    have := hks a ha
    omega
  simp [lowerIdx, List.countP_cons, h, hz]

theorem getElem_eq_of_eq (ks : List Int) (i j : Nat) (hi : i < ks.length)
    (hj : j < ks.length) (h : i = j) : ks[i] = ks[j] := by
  subst h
  rfl

/-- On a strictly sorted key list containing the probe, the insertion
point indexes the probe itself. -/
theorem getElem_lowerIdx (ks : List Int) (key : Int) (hs : ks.Pairwise (· < ·))
    (hmem : key ∈ ks) :
    ∃ h : lowerIdx ks key < ks.length, ks[lowerIdx ks key] = key := by
  obtain ⟨j, hj, hjv⟩ := List.mem_iff_getElem.1 hmem
  have h1 : ¬ (j < lowerIdx ks key) := by
    intro hlt
    have := (lt_lowerIdx_iff ks key hs j hj).2 hlt
    omega
  have hlen : lowerIdx ks key < ks.length := by omega
  refine ⟨hlen, ?_⟩
  rcases Nat.eq_or_lt_of_le (Nat.le_of_not_lt h1) with hE | hL
  · exact (getElem_eq_of_eq ks _ j hlen hj hE).trans hjv
  · exfalso
    have hp := (List.pairwise_iff_getElem.1 hs) _ _ hlen hj hL
    have := (lt_lowerIdx_iff ks key hs _ hlen).1 (by omega)
    omega

/-- `KeyIndex` on a sorted leaf equals the insertion point. -/
theorem keyIndex_eq (l : LeafPage) (key : Int)
    (hs : (l.entries.map Prod.fst).Pairwise (· < ·)) :
    l.keyIndex key = (lowerIdx (l.entries.map Prod.fst) key : Int) := by
  unfold LeafPage.keyIndex
  have hlm : l.entries.length = (l.entries.map Prod.fst).length := by simp
  rw [hlm]
  apply keyIndexGo_eq_lowerIdx (l.entries.map Prod.fst).length
  · omega
  · exact hs
  · omega
  · omega
  · omega
  · intro i hi h
    omega
  · intro i hi h
    omega

/-- `Lookup` finds a present key on a sorted leaf. -/
theorem lookup_of_mem (l : LeafPage) (key : Int)
    (hs : (l.entries.map Prod.fst).Pairwise (· < ·))
    (hmem : key ∈ l.entries.map Prod.fst) :
    ∃ w, l.lookup key = some w := by
  have hne : ¬ l.entries.length = 0 := by
    intro h0
    rw [List.length_eq_zero.1 h0] at hmem
    simp at hmem
  obtain ⟨hlt, hget⟩ := getElem_lowerIdx _ key hs hmem
  have hlt' : lowerIdx (l.entries.map Prod.fst) key < l.entries.length := by
    simpa using hlt
  have hfst : (l.entries.getD (lowerIdx (l.entries.map Prod.fst) key) (0, 0)).1 = key := by
    rw [List.getD_eq_getElem _ _ hlt']
    simpa using hget
  refine ⟨(l.entries.getD (lowerIdx (l.entries.map Prod.fst) key) (0, 0)).2, ?_⟩
  unfold LeafPage.lookup
  rw [if_neg hne, keyIndex_eq l key hs]
  simp only [Int.toNat_natCast]
  rw [if_pos ⟨hlt', by rw [hfst]; exact cmp_self key⟩]

/-- `Lookup` misses an absent key (no sortedness needed: the hit
branch compares the found slot with the probe). -/
theorem lookup_eq_none (l : LeafPage) (key : Int)
    (habs : key ∉ l.entries.map Prod.fst) :
    l.lookup key = none := by
  unfold LeafPage.lookup
  by_cases h0 : l.entries.length = 0
  · rw [if_pos h0]
  · rw [if_neg h0]
    have hcond : ¬ ((l.keyIndex key).toNat < l.entries.length ∧
        BPT.cmp (l.entries.getD (l.keyIndex key).toNat (0, 0)).1 key = 0) := by
      rintro ⟨hlt, hcmp⟩
      have heq := eq_of_cmp_eq_zero hcmp
      rw [List.getD_eq_getElem _ _ hlt] at heq
      exact habs (heq ▸ List.mem_map_of_mem Prod.fst (List.getElem_mem hlt))
    rw [if_neg hcond]

/-- `Insert` of an absent key inserts at the insertion point. -/
theorem insert_entries (l : LeafPage) (key : Int) (v : Nat)
    (hs : (l.entries.map Prod.fst).Pairwise (· < ·))
    (habs : key ∉ l.entries.map Prod.fst) :
    (l.insert key v).entries =
      l.entries.insertIdx (lowerIdx (l.entries.map Prod.fst) key) (key, v) := by
  unfold LeafPage.insert
  by_cases h0 : l.entries.length = 0
  · rw [if_pos h0, List.length_eq_zero.1 h0]
    rfl
  · rw [if_neg h0, keyIndex_eq l key hs]
    have hcond : ¬ (((lowerIdx (l.entries.map Prod.fst) key : Int)).toNat < l.entries.length ∧
        BPT.cmp (l.entries.getD ((lowerIdx (l.entries.map Prod.fst) key : Int)).toNat (0, 0)).1
          key = 0) := by
      rintro ⟨hlt, hcmp⟩
      have heq := eq_of_cmp_eq_zero hcmp
      rw [List.getD_eq_getElem _ _ hlt] at heq
      exact habs (heq ▸ List.mem_map_of_mem Prod.fst (List.getElem_mem hlt))
    rw [if_neg hcond]
    simp only [Int.toNat_natCast]

theorem insert_parent (l : LeafPage) (key : Int) (v : Nat) :
    (l.insert key v).parent = l.parent := by
  simp only [LeafPage.insert]
  split_ifs <;> rfl

theorem insert_maxSize (l : LeafPage) (key : Int) (v : Nat) :
    (l.insert key v).maxSize = l.maxSize := by
  simp only [LeafPage.insert]
  split_ifs <;> rfl

theorem map_fst_insertIdx (l : List (Int × Nat)) (n : Nat) (key : Int) (v : Nat)
    (h : n ≤ l.length) :
    (l.insertIdx n (key, v)).map Prod.fst = (l.map Prod.fst).insertIdx n key := by
  induction l generalizing n with
  | nil =>
      have hn : n = 0 := by simpa using h
      subst hn
      rfl
  | cons e rest ih =>
      cases n with
      | zero => rfl
      | succ n' =>
          simp only [List.insertIdx_succ_cons, List.map_cons]
          rw [ih n' (by simpa using h)]

theorem pairwise_insertIdx (ks : List Int) (key : Int)
    (hs : ks.Pairwise (· < ·)) (habs : key ∉ ks) :
    (ks.insertIdx (lowerIdx ks key) key).Pairwise (· < ·) := by
  induction ks with
  | nil => simp [lowerIdx]
  | cons k rest ih =>
      have hks : ∀ a ∈ rest, k < a := (List.pairwise_cons.1 hs).1
      have hrest : rest.Pairwise (· < ·) := (List.pairwise_cons.1 hs).2
      have habs' : key ∉ rest := fun h => habs (List.mem_cons_of_mem _ h)
      have hkne : key ≠ k := fun h => habs (by rw [h]; exact List.mem_cons_self k rest)
      by_cases hk : k < key
      · rw [lowerIdx_cons_pos k rest key hk, List.insertIdx_succ_cons]
        refine List.pairwise_cons.2 ⟨?_, ih hrest habs'⟩
        intro a ha
        rcases (List.mem_insertIdx (lowerIdx_le_length rest key)).1 ha with rfl | hmem
        · exact hk
        · exact hks a hmem
      · rw [lowerIdx_cons_zero k rest key hk hks, List.insertIdx_zero]
        refine List.pairwise_cons.2 ⟨?_, hs⟩
        intro a ha
        rcases List.mem_cons.1 ha with rfl | hmem
        · omega
        · have := hks a hmem
          omega

theorem mem_insertIdx_lowerIdx (ks : List Int) (key : Int) :
    key ∈ ks.insertIdx (lowerIdx ks key) key :=
  (List.mem_insertIdx (lowerIdx_le_length ks key)).2 (Or.inl rfl)


/-- The descent is monotone in fuel. -/
theorem descend_mono :
    ∀ (fuel fuel' : Nat) (t : Tree) (key : Int) (p lid : Int),
      fuel ≤ fuel' → descend t key fuel p = some lid →
      descend t key fuel' p = some lid := by
  intro fuel
  induction fuel with
  | zero =>
      intro fuel' t key p lid _ h
      simp [descend] at h
  | succ f ih =>
      intro fuel' t key p lid hle h
      cases fuel' with
      | zero => omega
      | succ f' =>
          simp only [descend] at h ⊢
          cases hp : t.pages p with
          | none => rw [hp] at h; exact absurd h (by simp)
          | some pg =>
              cases pg with
              | leaf l => rw [hp] at h; exact h
              | inner nd =>
                  rw [hp] at h
                  exact ih f' t key _ lid (by omega) h

/-- Replacing the reached leaf page by another leaf page does not
change the descent. -/
theorem descend_setPage_leaf :
    ∀ (fuel : Nat) (t : Tree) (key : Int) (p lid : Int) (l0 l1 : LeafPage),
      t.pages lid = some (.leaf l0) →
      descend t key fuel p = some lid →
      descend (t.setPage lid (.leaf l1)) key fuel p = some lid := by
  intro fuel
  induction fuel with
  | zero =>
      intro t key p lid l0 l1 _ h
      simp [descend] at h
  | succ f ih =>
      intro t key p lid l0 l1 hl h
      simp only [descend] at h ⊢
      by_cases hpe : p = lid
      · subst hpe
        rw [hl] at h
        simp [Tree.setPage]
      · rw [pages_setPage_ne t lid (.leaf l1) p hpe]
        cases hp : t.pages p with
        | none => rw [hp] at h; exact absurd h (by simp)
        | some pg =>
            cases pg with
            | leaf l =>
                rw [hp] at h
                exact h
            | inner nd =>
                rw [hp] at h
                exact ih t key _ lid l0 l1 hl h

/-- `InternalPage::Lookup` on a fresh two-entry root routes the probe
by the single separator key. -/
theorem lookupGo_pair (k0 c0 sep c1 : Int) (key : Int) :
    lookupGo [(k0, c0), (sep, c1)] key 1 1 = if key < sep then c0 else c1 := by
  rcases lt_trichotomy key sep with h | h | h
  · rw [lookupGo, dif_pos (by norm_num)]
    have hc : BPT.cmp ([(k0, c0), (sep, c1)].getD ((1 : Int) + (1 - 1) / 2).toNat (0, -1)).1
        key = 1 := by
      norm_num [List.getD, cmp_eq_one sep key h]
    rw [if_neg (by rw [hc]; norm_num), if_neg (by rw [hc]; norm_num)]
    rw [lookupGo]
    norm_num [List.getD]
    rw [if_neg (by rw [cmp_eq_one sep key h]; norm_num), if_pos h]
  · subst h
    rw [lookupGo, dif_pos (by norm_num)]
    have hc : BPT.cmp ([(k0, c0), (key, c1)].getD ((1 : Int) + (1 - 1) / 2).toNat (0, -1)).1
        key = 0 := by
      norm_num [List.getD, cmp_self]
    rw [if_pos hc]
    norm_num [List.getD]
  · rw [lookupGo, dif_pos (by norm_num)]
    have hc : BPT.cmp ([(k0, c0), (sep, c1)].getD ((1 : Int) + (1 - 1) / 2).toNat (0, -1)).1
        key = -1 := by
      norm_num [List.getD, cmp_eq_neg_one sep key h]
    rw [if_neg (by rw [hc]; norm_num), if_pos hc]
    rw [lookupGo]
    norm_num [List.getD]
    omega


theorem getElem_congr_idx {α : Type _} (xs : List α) (i j : Nat) (hi : i < xs.length)
    (hj : j < xs.length) (h : i = j) : xs[i] = xs[j] := by
  subst h
  rfl

theorem mem_of_getD (ks : List Int) (i : Nat) (d a : Int) (hi : i < ks.length)
    (h : ks.getD i d = a) : a ∈ ks := by
  rw [List.getD_eq_getElem _ _ hi] at h
  exact h ▸ List.getElem_mem hi

theorem insert_next (l : LeafPage) (key : Int) (v : Nat) :
    (l.insert key v).next = l.next := by
  simp only [LeafPage.insert]
  split_ifs <;> rfl


/-- C3: on a tree whose descent reaches a sorted leaf lacking the probe
key, `Insert(key, v)` returns true, and a second `Insert(key, v2)` of
the same key then returns false and leaves the tree unchanged, because
`InsertIntoLeaf` consults `Lookup` before mutating.  The final
hypothesis covers every first insert that fits in the leaf (arbitrary
tree shape) and also the root-leaf split. -/
theorem c3_duplicate_insert_rejected (t : Tree) (l : LeafPage) (key : Int) (v v' : Nat)
    (fuel fuel' : Nat) (lid : Int)
    (hroot : ¬ t.root = -1)
    (hdesc : descend t key fuel t.root = some lid)
    (hl : t.pages lid = some (.leaf l))
    (hs : (l.entries.map Prod.fst).Pairwise (· < ·))
    (habs : key ∉ l.entries.map Prod.fst)
    (hff : fuel ≤ fuel') (h2 : 2 ≤ fuel')
    (hcase : l.entries.length + 1 < l.maxSize ∨
      (l.parent = -1 ∧ t.root = lid ∧ l.entries.length + 1 = l.maxSize ∧ 2 ≤ l.maxSize ∧
        ¬ lid = t.nextId ∧ ¬ lid = t.nextId + 1 ∧ 0 ≤ t.nextId)) :
    (BPT.insert t key v fuel).2 = true ∧
      BPT.insert (BPT.insert t key v fuel).1 key v' fuel' =
        ((BPT.insert t key v fuel).1, false) := by
  have hlook : l.lookup key = none := lookup_eq_none l key habs
  obtain ⟨f, rfl⟩ : ∃ f, fuel = f + 1 := by
    cases fuel with
    | zero => simp [descend] at hdesc
    | succ f => exact ⟨f, rfl⟩
  rcases hcase with hguard | ⟨hlp, hrl, hlen, hmax2, hne1, hne2, hnn⟩
  · have hfirst : BPT.insert t key v (f + 1) =
        (t.setPage lid (.leaf (l.insert key v)), true) := by
      unfold BPT.insert
      rw [if_neg hroot]
      simp only [insertIntoLeaf, hdesc, hl, hlook]
      rw [if_pos hguard]
    rw [hfirst]
    refine ⟨rfl, ?_⟩
    have hroot' : (t.setPage lid (.leaf (l.insert key v))).root = t.root := rfl
    have hdesc' : descend (t.setPage lid (.leaf (l.insert key v))) key fuel' t.root =
        some lid :=
      descend_setPage_leaf fuel' t key t.root lid l _ hl
        (descend_mono (f + 1) fuel' t key t.root lid hff hdesc)
    have hks1 : (l.insert key v).entries.map Prod.fst =
        (l.entries.map Prod.fst).insertIdx (lowerIdx (l.entries.map Prod.fst) key) key := by
      rw [insert_entries l key v hs habs,
        map_fst_insertIdx _ _ _ _ (by simpa using lowerIdx_le_length (l.entries.map Prod.fst) key)]
    have hs1 : ((l.insert key v).entries.map Prod.fst).Pairwise (· < ·) := by
      rw [hks1]
      exact pairwise_insertIdx _ key hs habs
    have hmem1 : key ∈ (l.insert key v).entries.map Prod.fst := by
      rw [hks1]
      exact mem_insertIdx_lowerIdx _ key
    obtain ⟨w, hw⟩ := lookup_of_mem _ key hs1 hmem1
    unfold BPT.insert
    rw [if_neg (by rw [hroot']; exact hroot)]
    simp only [insertIntoLeaf, hroot', hdesc', pages_setPage_self, hw]
  · have hguardN : ¬ (l.entries.length + 1 < l.maxSize) := by omega
    have hne1' : ¬ (t.nextId : Int) = lid := fun h => hne1 h.symm
    have hne2' : ¬ (t.nextId + 1 : Int) = lid := fun h => hne2 h.symm
    have hnr : ¬ (t.nextId + 1 : Int) = t.nextId := by omega
    have hnr' : ¬ (t.nextId : Int) = t.nextId + 1 := by omega
    have hposle : lowerIdx (l.entries.map Prod.fst) key ≤ (l.entries.map Prod.fst).length :=
      lowerIdx_le_length _ key
    have hposle' : lowerIdx (l.entries.map Prod.fst) key ≤ l.entries.length := by
      simpa using hposle
    obtain ⟨E1, hE1def⟩ : ∃ x : List (Int × Nat),
        x = l.entries.insertIdx (lowerIdx (l.entries.map Prod.fst) key) (key, v) := ⟨_, rfl⟩
    have hE1 : (l.insert key v).entries = E1 := by
      rw [hE1def]
      exact insert_entries l key v hs habs
    have hE1len : E1.length = l.entries.length + 1 := by
      rw [hE1def, List.length_insertIdx _ _ hposle']
    obtain ⟨ST, hSTdef⟩ : ∃ x : Nat, x = E1.length / 2 := ⟨_, rfl⟩
    have hST1 : 1 ≤ ST := by omega
    have hSTlt : ST < E1.length := by omega
    obtain ⟨KEEP, hKEEPdef⟩ : ∃ x : List (Int × Nat), x = E1.take ST := ⟨_, rfl⟩
    obtain ⟨MOVED, hMOVEDdef⟩ : ∃ x : List (Int × Nat), x = E1.drop ST := ⟨_, rfl⟩
    obtain ⟨SEP, hSEPdef⟩ : ∃ x : Int, x = (MOVED.getD 0 (0, 0)).1 := ⟨_, rfl⟩
    obtain ⟨POS, hPOSdef⟩ : ∃ x : Nat, x = lowerIdx (l.entries.map Prod.fst) key := ⟨_, rfl⟩
    have hks1 : E1.map Prod.fst =
        (l.entries.map Prod.fst).insertIdx (lowerIdx (l.entries.map Prod.fst) key) key := by
      rw [hE1def]
      exact map_fst_insertIdx _ _ _ _ hposle'
    have hs1 : (E1.map Prod.fst).Pairwise (· < ·) := by
      rw [hks1]
      exact pairwise_insertIdx _ key hs habs
    have hmaplen : (E1.map Prod.fst).length = E1.length := by simp
    have hPOSlt : POS < E1.length := by omega
    have hbmap : POS < (E1.map Prod.fst).length := by omega
    have hbmapST : ST < (E1.map Prod.fst).length := by omega
    have hkey_at : (E1.map Prod.fst).getD POS 0 = key := by
      have h2b : lowerIdx (l.entries.map Prod.fst) key <
          ((l.entries.map Prod.fst).insertIdx (lowerIdx (l.entries.map Prod.fst) key)
            key).length := by
        rw [List.length_insertIdx _ _ hposle]
        omega
      rw [hPOSdef, hks1, List.getD_eq_getElem _ _ h2b]
      exact List.getElem_insertIdx_self _ key _ hposle
    have hMlen : MOVED.length = E1.length - ST := by
      rw [hMOVEDdef]
      simp
    have hM0 : 0 < MOVED.length := by omega
    have hsepE : SEP = (E1.getD ST (0, 0)).1 := by
      rw [hSEPdef, hMOVEDdef, List.getD_eq_getElem _ _ (by simp; omega :
          0 < (E1.drop ST).length), List.getD_eq_getElem _ _ hSTlt]
      simp
    have hsep_at : (E1.map Prod.fst).getD ST 0 = SEP := by
      rw [hsepE, List.getD_eq_getElem _ _ hbmapST, List.getD_eq_getElem _ _ hSTlt]
      simp
    have hlt_of_idx : ∀ i j : Nat, i < E1.length → j < E1.length → i < j →
        (E1.map Prod.fst).getD i 0 < (E1.map Prod.fst).getD j 0 := by
      intro i j hi hj hij
      rw [List.getD_eq_getElem _ _ (by omega : i < (E1.map Prod.fst).length),
        List.getD_eq_getElem _ _ (by omega : j < (E1.map Prod.fst).length)]
      exact (List.pairwise_iff_getElem.1 hs1) i j (by omega) (by omega) hij
    have hkc_iff : key < SEP ↔ POS < ST := by
      constructor
      · intro hkc
        by_contra hge
        rcases Nat.eq_or_lt_of_le (Nat.le_of_not_lt hge) with hE | hL
        · have hx : SEP = key := by
            rw [← hsep_at, hE, hkey_at]
          omega
        · have hx := hlt_of_idx ST POS (by omega) hPOSlt hL
          rw [hkey_at, hsep_at] at hx
          omega
      · intro hlt
        have hx := hlt_of_idx POS ST hPOSlt (by omega) hlt
        rw [hkey_at, hsep_at] at hx
        omega
    have hmapkeep : KEEP.map Prod.fst = (E1.map Prod.fst).take ST := by
      rw [hKEEPdef]
      simp
    have hmapmoved : MOVED.map Prod.fst = (E1.map Prod.fst).drop ST := by
      rw [hMOVEDdef]
      simp
    have hskeep : (KEEP.map Prod.fst).Pairwise (· < ·) := by
      rw [hmapkeep]
      exact List.Pairwise.sublist (List.take_sublist _ _) hs1
    have hsmoved : (MOVED.map Prod.fst).Pairwise (· < ·) := by
      rw [hmapmoved]
      exact List.Pairwise.sublist (List.drop_sublist _ _) hs1
    have hsnd : (BPT.insert t key v (f + 1)).2 = true := by
      unfold BPT.insert
      rw [if_neg hroot]
      simp only [insertIntoLeaf, hdesc, hl, hlook]
      rw [if_neg hguardN]
    have hT1 : (BPT.insert t key v (f + 1)).1.pages (t.nextId + 1) =
        some (.inner ⟨-1, t.innerMax, [(0, lid), (SEP, t.nextId)]⟩) := by
      unfold BPT.insert
      rw [if_neg hroot]
      simp only [insertIntoLeaf, hdesc, hl, hlook]
      rw [if_neg hguardN]
      simp only [insertIntoParent]
      split
      · simp [Tree.setParentOf, Tree.setPage, BPage.setParent, hne1, hne1', hne2, hne2',
          hnr, hnr', insert_maxSize, insert_parent, insert_next, hE1, hKEEPdef, hMOVEDdef,
          hSTdef, hSEPdef]
      · rename_i hcond
        exact absurd (by simp [Tree.pageD, Tree.setPage, BPage.parent, hne1, insert_parent, hlp]) hcond
    have hT2 : (BPT.insert t key v (f + 1)).1.pages lid =
        some (.leaf ⟨t.nextId + 1, l.maxSize, KEEP, t.nextId⟩) := by
      unfold BPT.insert
      rw [if_neg hroot]
      simp only [insertIntoLeaf, hdesc, hl, hlook]
      rw [if_neg hguardN]
      simp only [insertIntoParent]
      split
      · simp [Tree.setParentOf, Tree.setPage, BPage.setParent, hne1, hne1', hne2, hne2',
          hnr, hnr', insert_maxSize, insert_parent, insert_next, hE1, hKEEPdef, hMOVEDdef,
          hSTdef, hSEPdef]
      · rename_i hcond
        exact absurd (by simp [Tree.pageD, Tree.setPage, BPage.parent, hne1, insert_parent, hlp]) hcond
    have hT3 : (BPT.insert t key v (f + 1)).1.pages t.nextId =
        some (.leaf ⟨t.nextId + 1, t.leafMax, MOVED, l.next⟩) := by
      unfold BPT.insert
      rw [if_neg hroot]
      simp only [insertIntoLeaf, hdesc, hl, hlook]
      rw [if_neg hguardN]
      simp only [insertIntoParent]
      split
      · simp [Tree.setParentOf, Tree.setPage, BPage.setParent, hne1, hne1', hne2, hne2',
          hnr, hnr', insert_maxSize, insert_parent, insert_next, hE1, hKEEPdef, hMOVEDdef,
          hSTdef, hSEPdef]
      · rename_i hcond
        exact absurd (by simp [Tree.pageD, Tree.setPage, BPage.parent, hne1, insert_parent, hlp]) hcond
    have hT4 : (BPT.insert t key v (f + 1)).1.root = t.nextId + 1 := by
      unfold BPT.insert
      rw [if_neg hroot]
      simp only [insertIntoLeaf, hdesc, hl, hlook]
      rw [if_neg hguardN]
      simp only [insertIntoParent]
      split
      · simp
      · rename_i hcond
        exact absurd (by simp [Tree.pageD, Tree.setPage, BPage.parent, hne1, insert_parent, hlp]) hcond
    obtain ⟨T, hTeq⟩ : ∃ T : Tree, (BPT.insert t key v (f + 1)).1 = T := ⟨_, rfl⟩
    rw [hTeq] at hT1 hT2 hT3 hT4
    refine ⟨hsnd, ?_⟩
    rw [hTeq]
    obtain ⟨g, rfl⟩ : ∃ g, fuel' = g + 2 := ⟨fuel' - 2, by omega⟩
    have hTroot_ne : ¬ T.root = -1 := by
      rw [hT4]
      omega
    have hrlk : (⟨-1, t.innerMax, [(0, lid), (SEP, t.nextId)]⟩ : InternalPage).lookup key =
        if key < SEP then lid else t.nextId := by
      show lookupGo [(0, lid), (SEP, t.nextId)] key 1 1 = if key < SEP then lid else t.nextId
      exact lookupGo_pair 0 lid SEP t.nextId key
    by_cases hkc : key < SEP
    · have hPOSST : POS < ST := hkc_iff.1 hkc
      have hbtake : POS < ((E1.map Prod.fst).take ST).length := by
        simp
        omega
      have htk : ((E1.map Prod.fst).take ST).getD POS 0 = key := by
        rw [← hkey_at, List.getD_eq_getElem _ _ hbtake, List.getD_eq_getElem _ _ hbmap]
        simp
      have hmemkeep : key ∈ KEEP.map Prod.fst := by
        rw [hmapkeep]
        exact mem_of_getD _ POS 0 key hbtake htk
      have hdescT : descend T key (g + 2) T.root = some lid := by
        rw [hT4]
        simp only [descend, hT1]
        rw [hrlk, if_pos hkc]
        simp only [hT2]
      have hKP2s : (((⟨t.nextId + 1, l.maxSize, KEEP, t.nextId⟩ : LeafPage)).entries.map
          Prod.fst).Pairwise (· < ·) := hskeep
      have hKP2m : key ∈ ((⟨t.nextId + 1, l.maxSize, KEEP, t.nextId⟩ : LeafPage)).entries.map
          Prod.fst := hmemkeep
      obtain ⟨w, hw⟩ := lookup_of_mem _ key hKP2s hKP2m
      unfold BPT.insert
      rw [if_neg hTroot_ne]
      simp only [insertIntoLeaf, hdescT, hT2, hw]
    · have hSTPOS : ST ≤ POS := by
        by_contra hx
        exact hkc (hkc_iff.2 (by omega))
      have hbdrop : POS - ST < ((E1.map Prod.fst).drop ST).length := by
        simp
        omega
      have hdk : ((E1.map Prod.fst).drop ST).getD (POS - ST) 0 = key := by
        rw [← hkey_at, List.getD_eq_getElem _ _ hbdrop, List.getD_eq_getElem _ _ hbmap]
        rw [List.getElem_drop]
        exact getElem_congr_idx _ _ _ (by omega) (by omega) (by omega)
      have hmemmoved : key ∈ MOVED.map Prod.fst := by
        rw [hmapmoved]
        exact mem_of_getD _ (POS - ST) 0 key hbdrop hdk
      have hdescT : descend T key (g + 2) T.root = some t.nextId := by
        rw [hT4]
        simp only [descend, hT1]
        rw [hrlk, if_neg hkc]
        simp only [hT3]
      have hOP2s : (((⟨t.nextId + 1, t.leafMax, MOVED, l.next⟩ : LeafPage)).entries.map
          Prod.fst).Pairwise (· < ·) := hsmoved
      have hOP2m : key ∈ ((⟨t.nextId + 1, t.leafMax, MOVED, l.next⟩ : LeafPage)).entries.map
          Prod.fst := hmemmoved
      obtain ⟨w, hw⟩ := lookup_of_mem _ key hOP2s hOP2m
      unfold BPT.insert
      rw [if_neg hTroot_ne]
      simp only [insertIntoLeaf, hdescT, hT3, hw]

/-- Single-leaf tree used by the C3 witness. -/
def c3L : LeafPage := { parent := -1, maxSize := 4, entries := [(1, 1)], next := -1 }

def c3T : Tree :=
  { pages := fun p => if p = 0 then some (.leaf c3L) else none,
    root := 0, nextId := 1, leafMax := 4, innerMax := 4 }

/-- Witness for C3 at a concrete input: inserting key 2 into the
single-leaf tree succeeds and re-inserting key 2 is rejected without
changing the tree. -/
theorem c3_duplicate_insert_rejected_witness :
    (descend c3T 2 1 c3T.root = some 0 ∧ c3T.pages 0 = some (.leaf c3L) ∧
      ((2 : Int) ∉ c3L.entries.map Prod.fst)) ∧
    (BPT.insert c3T 2 7 1).2 = true ∧
      BPT.insert (BPT.insert c3T 2 7 1).1 2 8 2 = ((BPT.insert c3T 2 7 1).1, false) :=
  ⟨⟨by decide, by decide, by decide⟩,
    c3_duplicate_insert_rejected c3T c3L 2 7 8 1 2 0 (by decide) (by decide) (by decide)
      (by decide) (by decide) (by decide) (by decide) (by decide)⟩

end C3

end BPTThm
